import Mathlib

/-!
# Redsea group decoder: a shallow embedding of `src/groups.cc`

Machine integers are modelled by `Nat` and `Int`; the `uint16_t` result of
`bits` is reduced modulo `2^16` explicitly, and `int` arithmetic is exact (the
values that occur are far from the limits of `int`).  The `double` values of the
alternate-frequency list and of the clock decoder are modelled by exact
rationals, `int(x)` by truncation towards zero.  Undefined behaviour (an
out-of-range index into the character table) and a throwing `at` are modelled
by `none`.  Output to the terminal (`printf`, `std::cout`) is not station state
and is left out.  The header `groups.h`, which declares `Group` and `Station`,
is not among the sources: the two structures below list the members that
`groups.cc` uses.
-/

namespace Redsea

/-! ## Bit extractor -/

/-- The function `bits` of `groups.cc`: `(bitstring >> starting_at) & ((1<<len) - 1)`,
converted to `uint16_t`. -/
def bits (bitstring : Nat) (starting_at len : Nat) : Nat :=
  ((bitstring >>> starting_at) &&& ((1 <<< len) - 1)) % 65536

/-! ## Character table -/

/-- The table `char_map` of `lcd_char`: 14 rows of 16 glyphs, laid out for the codes
32..255. -/
def char_map : List String :=
  [" ","!","\x22","#","¤","%","&","\x27","(",")","*","+",",","-",".","/",
   "0","1","2","3","4","5","6","7","8","9",":",";","<","=",">","?",
   "@","A","B","C","D","E","F","G","H","I","J","K","L","M","N","O",
   "P","Q","R","S","T","U","V","W","X","Y","Z","[","\x5c","]","―","_",
   "‖","a","b","c","d","e","f","g","h","i","j","k","l","m","n","o",
   "p","q","r","s","t","u","v","w","x","y","z","\x7b","|","\x7d","¯"," ",
   "á","à","é","è","í","ì","ó","ò","ú","ù","Ñ","Ç","Ş","β","¡","Ĳ",
   "â","ä","ê","ë","î","ï","ô","ö","û","ü","ñ","ç","ş","ǧ","ı","ĳ",
   "ª","α","©","‰","Ǧ","ě","ň","ő","π","€","£","$","←","↑","→","↓",
   "º","¹","²","³","±","İ","ń","ű","µ","¿","÷","°","¼","½","¾","§",
   "Á","À","É","È","Í","Ì","Ó","Ò","Ú","Ù","Ř","Č","Š","Ž","Ð","Ŀ",
   "Â","Ä","Ê","Ë","Î","Ï","Ô","Ö","Û","Ü","ř","č","š","ž","đ","ŀ",
   "Ã","Å","Æ","Œ","ŷ","Ý","Õ","Ø","Þ","Ŋ","Ŕ","Ć","Ś","Ź","Ŧ","ð",
   "ã","å","æ","œ","ŵ","ý","õ","ø","þ","ŋ","ŕ","ć","ś","ź","ŧ"," "]

/-- The function `lcd_char` of `groups.cc`: `char_map[code - 32]`.  The argument is the
value of the plain `char` parameter, a signed 8-bit value, -128..127 (plain `char` is
signed on x86 and x86-64, where the program is built); `code - 32` is computed in `int`.
The unchecked `operator[]` outside the table, in particular at a negative index, is
undefined behaviour: `none`. -/
def lcd_char (code : Int) : Option String :=
  if 0 ≤ code - 32 then char_map.get? (code - 32).toNat else none

/-- The conversion of an `int` element of `chars` to the plain `char` parameter of
`lcd_char`: the value is reduced modulo 256 into the range of a signed 8-bit `char`,
-128..127, so that a code in 128..255 becomes `code - 256`. -/
def toChar (c : Int) : Int := (c + 128) % 256 - 128

/-! ## Data model -/

/-- The `TYPE_A` / `TYPE_B` tag of a group (`group.type_ab`). -/
inductive TypeAB where
  | TYPE_A
  | TYPE_B
  deriving DecidableEq, Repr

/-- Modelled from the spec: the declaration of `Group` is in `groups.h`, which is not
part of the sources.  Four 16-bit blocks, the group type, the variant and the number
of blocks received. -/
structure Group where
  block1 : Nat
  block2 : Nat
  block3 : Nat
  block4 : Nat
  type : Nat
  type_ab : TypeAB
  num_blocks : Nat
  deriving DecidableEq, Repr

/-- Modelled from the spec: the member declarations of `Station` are in `groups.h`,
which is not part of the sources.  The members are those that `groups.cc` reads and
writes, under their names there.  The paging, linkage and clock members, which the spec
describes as unset until a decode path writes them, are options: `none` is unset and
an assignment `x_ = v` stores `some v`. -/
structure Station where
  pi_ : Nat
  ps_ : List String
  is_tp_ : Bool
  pty_ : Nat
  is_ta_ : Bool
  is_music_ : Bool
  alt_freqs_ : List ℚ
  num_alt_freqs_ : Int
  has_ps_ : Bool
  ps_received_bitfield_ : Nat
  prev_ps_pos_ : Int
  pin_ : Option Nat
  pager_tng_ : Option Nat
  pager_interval_ : Option Nat
  linkage_la_ : Option Nat
  pager_opc_ : Option Nat
  pager_pac_ : Option Nat
  pager_ecc_ : Option Nat
  pager_ccf_ : Option Nat
  ecc_ : Option Nat
  cc_ : Option Nat
  tmc_id_ : Option Nat
  lang_ : Option Nat
  ews_channel_ : Option Nat
  clock_time_ : Option String
  deriving DecidableEq

namespace Station

/-- The constructor `Station::Station(uint16_t _pi)`: it initialises `pi_` and `ps_`
(eight blank glyphs).  The members it does not name take the initial values given by
their declarations in `groups.h`; those are the parameter `decl`. -/
def Station_pi (decl : Station) (_pi : Nat) : Station :=
  { decl with pi_ := _pi, ps_ := [" ", " ", " ", " ", " ", " ", " ", " "] }

/-- The default constructor `Station::Station()`, which delegates to `Station(0x0000)`. -/
def Station_default (decl : Station) : Station :=
  Station_pi decl 0

/-- The method `Station::addAltFreq`; `af_code` is a `uint8_t`. -/
def addAltFreq (s : Station) (af_code : Nat) : Station :=
  if 1 ≤ af_code ∧ af_code ≤ 204 then
    { s with alt_freqs_ := s.alt_freqs_ ++ [87.5 + (af_code : ℚ) / 10.0] }
  else if af_code = 205 then
    s
  else if af_code = 224 then
    s
  else if 225 ≤ af_code ∧ af_code ≤ 249 then
    { s with num_alt_freqs_ := (af_code : Int) - 224 }
  else if af_code = 250 then
    s
  else
    s

/-- The method `Station::hasPS`. -/
def hasPS (s : Station) : Bool :=
  s.has_ps_

/-- The method `Station::getPS`: the glyphs of `ps_` appended in order when the name is
ready, the empty string otherwise. -/
def getPS (s : Station) : String :=
  if s.has_ps_ then s.ps_.foldl (fun chars_str ch => chars_str ++ ch) "" else ""

/-- The method `Station::getPI`. -/
def getPI (s : Station) : Nat :=
  s.pi_

/-- The `for` loop of `Station::updatePS`, run over the elements of `chars` with `i`
counting up from `pos`: it sets bit `i` of the mask and stores the glyph at `ps_.at(i)`.
A throwing `at` and an undefined `lcd_char` give `none`. -/
def updatePS_loop : List Int → Nat → Station → Option Station
  | [], _, s => some s
  | c :: cs, i, s =>
    match lcd_char (toChar c) with
    | none => none
    | some g =>
      if i < s.ps_.length then
        updatePS_loop cs (i + 1)
          { s with ps_received_bitfield_ := s.ps_received_bitfield_ ||| (1 <<< i),
                   ps_ := s.ps_.set i g }
      else none

/-- The method `Station::updatePS`. -/
def updatePS (s : Station) (pos : Int) (chars : List Int) : Option Station :=
  if pos < 0 ∨ pos + (chars.length : Int) > 8 then
    some s
  else
    let s1 : Station :=
      if pos ≠ s.prev_ps_pos_ + 2 ∨ pos = s.prev_ps_pos_ then
        { s with has_ps_ := false, ps_received_bitfield_ := 0 }
      else s
    match updatePS_loop chars pos.toNat s1 with
    | none => none
    | some s2 =>
      let s3 : Station := { s2 with prev_ps_pos_ := pos }
      if s3.ps_received_bitfield_ = 255 then some { s3 with has_ps_ := true } else some s3

/-- The method `Station::updateRadioText`, whose body is commented out in the source. -/
def updateRadioText (s : Station) (_pos : Int) (_chars : List Int) : Station :=
  s

/-- The method `Station::decode0`. -/
def decode0 (s : Station) (group : Group) : Option Station :=
  let s1 : Station :=
    { s with is_ta_ := decide (bits group.block2 4 1 ≠ 0),
             is_music_ := decide (bits group.block2 3 1 ≠ 0) }
  if group.num_blocks < 3 then
    some s1
  else
    let s2 : Station :=
      if group.type_ab = TypeAB.TYPE_A then
        (List.range 2).foldl (fun st i => st.addAltFreq (bits group.block3 (8 - i * 8) 8)) s1
      else s1
    if group.num_blocks < 4 then
      some s2
    else
      s2.updatePS ((bits group.block2 0 2 : Int) * 2)
        [(bits group.block4 8 8 : Int), (bits group.block4 0 8 : Int)]

/-- The "No PIN" part of `Station::decode1` (section M.3.2.4.3), which the source has
twice, under `slc_variant` 0 and 2; `tng` is the value just stored in `pager_tng_`. -/
def decode1_noPIN (s : Station) (group : Group) (tng : Nat) : Station :=
  if group.num_blocks = 4 ∧ group.block4 >>> 11 = 0 then
    let subtype := bits group.block4 10 1
    if subtype = 0 then
      if tng ≠ 0 then
        { s with pager_pac_ := some (bits group.block4 4 6),
                 pager_opc_ := some (bits group.block4 0 4) }
      else s
    else if subtype = 1 then
      if tng ≠ 0 then
        let b := bits group.block4 8 2
        if b = 0 then
          { s with pager_ecc_ := some (bits group.block4 0 6) }
        else if b = 3 then
          { s with pager_ccf_ := some (bits group.block4 0 4) }
        else s
      else s
    else s
  else s

/-- The chain `if (slc_variant == 0) ... else if (slc_variant == 1) ...` of
`Station::decode1`, run on the state `s` reached after `linkage_la_` is stored; `tng` is
the value stored in `pager_tng_`. -/
def decode1_slc (s : Station) (group : Group) (tng : Nat) : Station :=
  let slc_variant := bits group.block3 12 3
  if slc_variant = 0 then
    let s5 : Station :=
      if tng ≠ 0 then { s with pager_opc_ := some (bits group.block3 8 4) } else s
    let s6 : Station := decode1_noPIN s5 group tng
    { s6 with ecc_ := some (bits group.block3 0 8), cc_ := some (bits group.block1 12 4) }
  else if slc_variant = 1 then
    { s with tmc_id_ := some (bits group.block3 0 12) }
  else if slc_variant = 2 then
    let s5 : Station :=
      if tng ≠ 0 then
        { s with pager_pac_ := some (bits group.block3 0 6),
                 pager_opc_ := some (bits group.block3 8 4) }
      else s
    decode1_noPIN s5 group tng
  else if slc_variant = 3 then
    { s with lang_ := some (bits group.block3 0 8) }
  else if slc_variant = 6 then
    s
  else if slc_variant = 7 then
    { s with ews_channel_ := some (bits group.block3 0 12) }
  else s

/-- The method `Station::decode1`. -/
def decode1 (s : Station) (group : Group) : Station :=
  if group.num_blocks < 4 then
    s
  else
    let s1 : Station := { s with pin_ := some group.block4 }
    if group.type_ab = TypeAB.TYPE_A then
      let tng := bits group.block2 2 3
      let s2 : Station := { s1 with pager_tng_ := some tng }
      let s3 : Station :=
        if tng ≠ 0 then { s2 with pager_interval_ := some (bits group.block2 0 2) } else s2
      let s4 : Station := { s3 with linkage_la_ := some (bits group.block3 15 1) }
      decode1_slc s4 group tng
    else s1

/-- The method `Station::decode2`. -/
def decode2 (s : Station) (group : Group) : Station :=
  if group.num_blocks < 3 then
    s
  else
    let rt_position : Int :=
      (bits group.block2 0 4 : Int) * (if group.type_ab = TypeAB.TYPE_A then 4 else 2)
    let s1 : Station :=
      if group.type_ab = TypeAB.TYPE_A then
        s.updateRadioText rt_position
          [(bits group.block3 8 8 : Int), (bits group.block3 0 8 : Int)]
      else s
    if group.num_blocks = 4 then
      s1.updateRadioText (rt_position + 2)
        [(bits group.block4 8 8 : Int), (bits group.block4 0 8 : Int)]
    else s1

/-- The conversion `int(x)` of a `double` (here an exact rational) to `int`:
truncation towards zero. -/
def toInt (x : ℚ) : Int :=
  if 0 ≤ x then ⌊x⌋ else ⌈x⌉

/-- The `printf` conversions `%0<width>d` (`plus = false`) and `%+0<width>d`
(`plus = true`): the decimal digits of the magnitude, preceded by the sign (`-`, or `+`
under the `+` flag) and padded with zeros after the sign up to `width` characters. -/
def fmt_d (plus : Bool) (width : Nat) (n : Int) : List Char :=
  let digits := Nat.toDigits 10 n.natAbs
  let sign : List Char := if n < 0 then ['-'] else if plus then ['+'] else []
  sign ++ List.replicate (width - sign.length - digits.length) '0' ++ digits

/-- The call `snprintf(buff, sizeof(buff), "%04d-%02d-%02dT%02d:%02d%+03d:%02d\n", ...)`
of `Station::decode4` with `char buff[100]`: at most 99 characters are kept. -/
def clock_snprintf (yr mo dy hr mn lto_int ltom : Int) : String :=
  String.mk
    ((fmt_d false 4 yr ++ ['-'] ++ fmt_d false 2 mo ++ ['-'] ++ fmt_d false 2 dy ++ ['T'] ++
      fmt_d false 2 hr ++ [':'] ++ fmt_d false 2 mn ++ fmt_d true 3 lto_int ++ [':'] ++
      fmt_d false 2 ltom ++ ['\n']).take 99)

/-- The method `Station::decode4`.  `lto` is read only where `num_blocks == 4`, the
case in which the source assigns it. -/
def decode4 (s : Station) (group : Group) : Station :=
  let mjd0 : ℚ := (((bits group.block2 0 2 <<< 15) + bits group.block3 1 15 : Nat) : ℚ)
  let lto : ℚ :=
    (((if bits group.block4 5 1 ≠ 0 then -1 else 1) * (bits group.block4 0 5 : Int) : Int) : ℚ)
      / 2.0
  let mjd : ℚ := if group.num_blocks = 4 then (toInt (mjd0 + lto / 24.0) : ℚ) else mjd0
  let yr0 : Int := toInt ((mjd - 15078.2) / 365.25)
  let mo0 : Int := toInt ((mjd - 14956.1 - (toInt ((yr0 : ℚ) * 365.25) : ℚ)) / 30.6001)
  let dy : Int :=
    toInt (mjd - 14956 - (toInt ((yr0 : ℚ) * 365.25) : ℚ) - (toInt ((mo0 : ℚ) * 30.6001) : ℚ))
  let yr1 : Int := if mo0 = 14 ∨ mo0 = 15 then yr0 + 1 else yr0
  let mo1 : Int := if mo0 = 14 ∨ mo0 = 15 then mo0 - 12 else mo0
  let yr : Int := yr1 + 1900
  let mo : Int := mo1 - 1
  if group.num_blocks = 4 then
    let ltom : Int := toInt ((lto - (toInt lto : ℚ)) * 60)
    let hr : Int :=
      Int.tmod
        (toInt ((((bits group.block3 0 1 <<< 4) + bits group.block4 12 14 : Nat) : ℚ) + lto)) 24
    let mn : Int := (bits group.block4 6 6 : Int) + ltom
    { s with clock_time_ := some (clock_snprintf yr mo dy hr mn (toInt lto) ltom) }
  else s

/-- The method `Station::add`. -/
def add (s : Station) (group : Group) : Option Station :=
  let s1 : Station :=
    { s with is_tp_ := decide (bits group.block2 10 1 ≠ 0), pty_ := bits group.block2 5 5 }
  if group.type = 0 then s1.decode0 group
  else if group.type = 1 then some (s1.decode1 group)
  else if group.type = 2 then some (s1.decode2 group)
  else if group.type = 4 then some (s1.decode4 group)
  else some s1

end Station

/-! ## Auxiliary definitions, used to state what the methods compute -/

namespace Station

/-- The mask after the loop of `updatePS` has run over `n` positions from `i`:
`m` with the bits `i .. i+n-1` set. -/
def orBits (m i : Nat) : Nat → Nat
  | 0 => m
  | n + 1 => orBits (m ||| (1 <<< i)) (i + 1) n

/-- The glyph buffer after the loop of `updatePS` has stored the glyphs of `chars` from
position `i` on (a code outside the table stores nothing here; the loop is undefined
on such a code). -/
def storeGlyphs (ps : List String) (i : Nat) : List Int → List String
  | [] => ps
  | c :: cs =>
    match lcd_char (toChar c) with
    | none => ps
    | some g => storeGlyphs (ps.set i g) (i + 1) cs

/-- Every code of `chars` is one that `lcd_char` is defined on once it is held in a
`char`: 32..127. -/
def validChars (chars : List Int) : Prop :=
  ∀ c ∈ chars, 32 ≤ c ∧ c ≤ 127

instance (chars : List Int) : Decidable (validChars chars) := by
  unfold validChars
  infer_instance

/-- The condition under which `updatePS` clears the mask and the ready flag. -/
def resets (s : Station) (pos : Int) : Prop :=
  pos ≠ s.prev_ps_pos_ + 2 ∨ pos = s.prev_ps_pos_

instance (s : Station) (pos : Int) : Decidable (resets s pos) := by
  unfold resets
  infer_instance

/-- The members of a station other than the paging and linkage members that
`decode1` writes. -/
def nonPaging (s : Station) :=
  (s.pi_, s.ps_, s.is_tp_, s.pty_, s.is_ta_, s.is_music_, s.alt_freqs_, s.num_alt_freqs_,
    s.has_ps_, s.ps_received_bitfield_, s.prev_ps_pos_, s.clock_time_)

/-- The members of a station other than the four that `updatePS` writes. -/
def nonName (s : Station) :=
  (s.pi_, s.is_tp_, s.pty_, s.is_ta_, s.is_music_, s.alt_freqs_, s.num_alt_freqs_,
    s.pin_, s.pager_tng_, s.pager_interval_, s.linkage_la_, s.pager_opc_, s.pager_pac_,
    s.pager_ecc_, s.pager_ccf_, s.ecc_, s.cc_, s.tmc_id_, s.lang_, s.ews_channel_,
    s.clock_time_)

/-- The members of a station other than the two that `addAltFreq` writes. -/
def nonAltFreq (s : Station) :=
  (s.pi_, s.ps_, s.is_tp_, s.pty_, s.is_ta_, s.is_music_, s.has_ps_,
    s.ps_received_bitfield_, s.prev_ps_pos_,
    s.pin_, s.pager_tng_, s.pager_interval_, s.linkage_la_, s.pager_opc_, s.pager_pac_,
    s.pager_ecc_, s.pager_ccf_, s.ecc_, s.cc_, s.tmc_id_, s.lang_, s.ews_channel_,
    s.clock_time_)

/-- The state after the two assignments at the head of `add`. -/
def add_header (s : Station) (g : Group) : Station :=
  { s with is_tp_ := decide (bits g.block2 10 1 ≠ 0), pty_ := bits g.block2 5 5 }

/-- The state after the two assignments at the head of `decode0`. -/
def decode0_flags (s : Station) (g : Group) : Station :=
  { s with is_ta_ := decide (bits g.block2 4 1 ≠ 0),
           is_music_ := decide (bits g.block2 3 1 ≠ 0) }

/-- The state after the alternate-frequency loop of `decode0`, unrolled: for variant A,
`addAltFreq` on bits 8..15 and then on bits 0..7 of block 3. -/
def decode0_altFreqs (s : Station) (g : Group) : Station :=
  if g.type_ab = TypeAB.TYPE_A then
    (s.addAltFreq (bits g.block3 8 8)).addAltFreq (bits g.block3 0 8)
  else s

/-- The state of `decode1` on a variant-A group of 4 blocks when it reaches the chain on
`slc_variant`: `pin_`, `pager_tng_`, `pager_interval_` (for a non-zero `pager_tng_`) and
`linkage_la_` are stored. -/
def decode1_common (s : Station) (g : Group) : Station :=
  { s with pin_ := some g.block4,
           pager_tng_ := some (bits g.block2 2 3),
           pager_interval_ :=
             if bits g.block2 2 3 ≠ 0 then some (bits g.block2 0 2) else s.pager_interval_,
           linkage_la_ := some (bits g.block3 15 1) }

/-- The members of a station other than the four pager members that the "No PIN" part
of `decode1` writes. -/
def nonPager (s : Station) :=
  (nonPaging s, s.pin_, s.pager_tng_, s.pager_interval_, s.linkage_la_, s.ecc_, s.cc_,
    s.tmc_id_, s.lang_, s.ews_channel_)

/-- The four members that `decode1` stores before the chain on `slc_variant`. -/
def commonPart (s : Station) :=
  (s.pin_, s.pager_tng_, s.pager_interval_, s.linkage_la_)

/-- The nine members among which the chain on `slc_variant` selects. -/
def slcPayload (s : Station) :=
  (s.tmc_id_, s.lang_, s.ews_channel_, s.ecc_, s.cc_, s.pager_opc_, s.pager_pac_,
    s.pager_ecc_, s.pager_ccf_)

/-- The bit extractor with the precondition of its callers checked: an error, `none`,
when `starting_at + len > 16`. -/
def bits_checked (bitstring starting_at len : Nat) : Option Nat :=
  if starting_at + len ≤ 16 then some (bits bitstring starting_at len) else none

/-- The calls of `bits` that `decode4` makes on a group of 4 blocks, in the order of the
source (lines 256, 260, 277 to 279), each as `(bitstring, starting_at, len)`. -/
def decode4_bits_calls (group : Group) : List (Nat × Nat × Nat) :=
  [(group.block2, 0, 2), (group.block3, 1, 15), (group.block4, 5, 1), (group.block4, 0, 5),
   (group.block3, 0, 1), (group.block4, 12, 14), (group.block4, 6, 6)]

/-- The day number that `decode4` reads from blocks 2 and 3 (line 256):
`(bits(block2, 0, 2) << 15) + bits(block3, 1, 15)`. -/
def decode4_mjd0 (g : Group) : Nat := (bits g.block2 0 2 <<< 15) + bits g.block3 1 15

/-- Twice the local offset `lto` of `decode4` (line 260), as an integer: the magnitude
`bits(block4, 0, 5)` in half-hours, negated when `bits(block4, 5, 1)` is set. -/
def decode4_ks (g : Group) : Int :=
  (if bits g.block4 5 1 ≠ 0 then -1 else 1) * (bits g.block4 0 5 : Int)

/-- The UTC hour that `decode4` reads (line 277):
`(bits(block3, 0, 1) << 4) + bits(block4, 12, 14)`. -/
def decode4_hour (g : Group) : Nat := (bits g.block3 0 1 <<< 4) + bits g.block4 12 14

/-- The UTC minute that `decode4` reads (line 279): `bits(block4, 6, 6)`. -/
def decode4_minute (g : Group) : Nat := bits g.block4 6 6

/-- The date lines of `decode4` (lines 264 to 272) as a function of the day number held
in `mjd` at line 264: the year, month and day that are passed to `snprintf`. -/
def mjd_date (mjd : ℚ) : Int × Int × Int :=
  let yr0 : Int := toInt ((mjd - 15078.2) / 365.25)
  let mo0 : Int := toInt ((mjd - 14956.1 - (toInt ((yr0 : ℚ) * 365.25) : ℚ)) / 30.6001)
  let dy : Int :=
    toInt (mjd - 14956 - (toInt ((yr0 : ℚ) * 365.25) : ℚ) - (toInt ((mo0 : ℚ) * 30.6001) : ℚ))
  let yr1 : Int := if mo0 = 14 ∨ mo0 = 15 then yr0 + 1 else yr0
  let mo1 : Int := if mo0 = 14 ∨ mo0 = 15 then mo0 - 12 else mo0
  (yr1 + 1900, mo1 - 1, dy)

/-- The computation of `mjd_date` on an integer day number, with each truncated
rational replaced by the integer quotient it is equal to when nothing is negative. -/
def mjd_date_int (m : Int) : Int × Int × Int :=
  let yr0 : Int := (20 * m - 301564) / 7305
  let a : Int := 1461 * yr0 / 4
  let mo0 : Int := (10000 * m - 149561000 - 10000 * a) / 306001
  let dy : Int := m - 14956 - a - 306001 * mo0 / 10000
  let yr1 : Int := if mo0 = 14 ∨ mo0 = 15 then yr0 + 1 else yr0
  let mo1 : Int := if mo0 = 14 ∨ mo0 = 15 then mo0 - 12 else mo0
  (yr1 + 1900, mo1 - 1, dy)

/-! ### The Gregorian calendar, as a reference

These definitions are not taken from `groups.cc`: they state the calendar itself, by
counting days, so that what `decode4` computes can be compared with it. -/

/-- Reference: the leap years of the Gregorian calendar. -/
def is_leap_year (y : Int) : Bool :=
  y % 4 = 0 ∧ (y % 100 ≠ 0 ∨ y % 400 = 0)

/-- Reference: the number of days of month `m` of year `y`. -/
def days_in_month (y m : Int) : Int :=
  if m = 2 then (if is_leap_year y then 29 else 28)
  else if m = 4 ∨ m = 6 ∨ m = 9 ∨ m = 11 then 30
  else 31

/-- Reference: the number of days from 0001-01-01 to the first day of year `y`. -/
def days_before_year (y : Int) : Int :=
  365 * (y - 1) + (y - 1) / 4 - (y - 1) / 100 + (y - 1) / 400

/-- Reference: the number of days of year `y` before its month `m`, the sum of the
lengths of the months `1 .. m - 1`. -/
def days_before_month (y m : Int) : Int :=
  ((List.range (m - 1).toNat).map (fun (i : Nat) => days_in_month y ((i : Int) + 1))).sum

/-- Reference: the Modified Julian Day of the Gregorian date `y`-`m`-`d`; day 0 is
1858-11-17, which is 678575 days after 0001-01-01. -/
def mjd_of_gregorian (y m d : Int) : Int :=
  days_before_year y + days_before_month y m + (d - 1) - 678575

/-- Reference: `y`-`m`-`d` is a date of the calendar. -/
def valid_date (y m d : Int) : Prop :=
  1 ≤ m ∧ m ≤ 12 ∧ 1 ≤ d ∧ d ≤ days_in_month y m

/-- Reference: the instant `hour:minute` UTC of day `mjd` moved by `ks` half-hours, as
day number, hour in 0..23 and minute in 0..59. -/
def local_time_ref (mjd hour minute ks : Int) : Int × Int × Int :=
  let t : Int := hour * 60 + minute + 30 * ks
  (mjd + t / 1440, t % 1440 / 60, t % 60)

/-- The shape `YYYY-MM-DDTHH:MM±HH:MM`: 4 digits, `-`, 2 digits, `-`, 2 digits, `T`,
2 digits, `:`, 2 digits, a sign, 2 digits, `:`, 2 digits, and nothing else. -/
def iso_shape (l : List Char) : Bool :=
  match l with
  | [y1, y2, y3, y4, c1, m1, m2, c2, d1, d2, t, h1, h2, c3, n1, n2, sg, o1, o2, c4, p1, p2] =>
      y1.isDigit && y2.isDigit && y3.isDigit && y4.isDigit && c1 == '-' &&
      m1.isDigit && m2.isDigit && c2 == '-' && d1.isDigit && d2.isDigit && t == 'T' &&
      h1.isDigit && h2.isDigit && c3 == ':' && n1.isDigit && n2.isDigit &&
      (sg == '+' || sg == '-') && o1.isDigit && o2.isDigit && c4 == ':' &&
      p1.isDigit && p2.isDigit
  | _ => false

/-- A 4-block group 4A: day 51544, 12:00 UTC, local offset 0. -/
def group_4A_noon : Group :=
  { block1 := 0, block2 := 16385, block3 := 37552, block4 := 49152, type := 4,
    type_ab := TypeAB.TYPE_A, num_blocks := 4 }

/-- A 4-block group 4A: day 51544, 23:00 UTC, local offset +1 h. -/
def group_4A_late : Group :=
  { block1 := 0, block2 := 16385, block3 := 37553, block4 := 28674, type := 4,
    type_ab := TypeAB.TYPE_A, num_blocks := 4 }

/-- A 4-block group 4A: day 51544, 00:15 UTC, local offset -1.5 h. -/
def group_4A_early : Group :=
  { block1 := 0, block2 := 16385, block3 := 37552, block4 := 995, type := 4,
    type_ab := TypeAB.TYPE_A, num_blocks := 4 }

/-- A choice of declared initial values for concrete examples: every flag false, every
number zero, every optional member unset. -/
def decl_zero : Station :=
  { pi_ := 0, ps_ := [], is_tp_ := false, pty_ := 0, is_ta_ := false, is_music_ := false,
    alt_freqs_ := [], num_alt_freqs_ := 0, has_ps_ := false, ps_received_bitfield_ := 0,
    prev_ps_pos_ := 0, pin_ := none, pager_tng_ := none, pager_interval_ := none,
    linkage_la_ := none, pager_opc_ := none, pager_pac_ := none, pager_ecc_ := none,
    pager_ccf_ := none, ecc_ := none, cc_ := none, tmc_id_ := none, lang_ := none,
    ews_channel_ := none, clock_time_ := none }

end Station

/-! ## Auxiliary lemmas -/

theorem bits_val (x s l : Nat) : bits x s l = x / 2 ^ s % 2 ^ l % 65536 := by
  unfold bits
  rw [Nat.shiftRight_eq_div_pow, Nat.one_shiftLeft, Nat.and_pow_two_sub_one_eq_mod]

theorem bits_lt (x s l : Nat) : bits x s l < 2 ^ l := by
  rw [bits_val]
  exact lt_of_le_of_lt (Nat.mod_le _ _) (Nat.mod_lt _ (Nat.two_pow_pos l))

theorem bits_small (x s l : Nat) (hl : l ≤ 16) : bits x s l = x / 2 ^ s % 2 ^ l := by
  rw [bits_val]
  apply Nat.mod_eq_of_lt
  calc x / 2 ^ s % 2 ^ l < 2 ^ l := Nat.mod_lt _ (Nat.two_pow_pos l)
    _ ≤ 2 ^ 16 := Nat.pow_le_pow_right (by decide) hl

theorem bits_testBit (x i : Nat) : decide (bits x i 1 ≠ 0) = x.testBit i := by
  rw [bits_small x i 1 (by decide), Nat.testBit_to_div_mod]
  have h : x / 2 ^ i % 2 ^ 1 = x / 2 ^ i % 2 := by norm_num
  rw [h]
  rcases Nat.mod_two_eq_zero_or_one (x / 2 ^ i) with h2 | h2 <;> simp [h2]

theorem toChar_of_valid (c : Int) (h : 32 ≤ c ∧ c ≤ 127) : toChar c = c := by
  unfold toChar
  omega

theorem char_map_length : char_map.length = 224 := rfl

theorem toChar_high (c : Int) (h : 128 ≤ c ∧ c ≤ 255) : toChar c = c - 256 := by
  unfold toChar
  omega

theorem lcd_char_high (c : Int) (h : 128 ≤ c ∧ c ≤ 255) : lcd_char (toChar c) = none := by
  rw [toChar_high c h]
  unfold lcd_char
  rw [if_neg (by omega)]

theorem lcd_char_isSome (c : Int) (h : 32 ≤ c ∧ c ≤ 127) :
    ∃ g, lcd_char c = some g ∧ char_map.get? (c - 32).toNat = some g := by
  have hlt : (c - 32).toNat < char_map.length := by
    have : char_map.length = 224 := char_map_length
    omega
  refine ⟨char_map.get ⟨(c - 32).toNat, hlt⟩, ?_, List.get?_eq_get hlt⟩
  unfold lcd_char
  rw [if_pos (by omega)]
  exact List.get?_eq_get hlt

namespace Station

theorem updatePS_loop_eq (chars : List Int) :
    ∀ (i : Nat) (s : Station), validChars chars → i + chars.length ≤ s.ps_.length →
      updatePS_loop chars i s =
        some { s with ps_received_bitfield_ := orBits s.ps_received_bitfield_ i chars.length,
                      ps_ := storeGlyphs s.ps_ i chars } := by
  induction chars with
  | nil => intro i s _ _; rfl
  | cons c cs ih =>
    intro i s hv hb
    have hc : 32 ≤ c ∧ c ≤ 127 := hv c (List.mem_cons_self c cs)
    obtain ⟨g, hg, _⟩ := lcd_char_isSome c hc
    have hg2 : lcd_char (toChar c) = some g := by rw [toChar_of_valid c hc]; exact hg
    have hi : i < s.ps_.length := by simp only [List.length_cons] at hb; omega
    have hv2 : validChars cs := fun d hd => hv d (List.mem_cons_of_mem c hd)
    simp only [updatePS_loop, hg2, if_pos hi]
    rw [ih (i + 1) _ hv2 (by simp only [List.length_set, List.length_cons] at hb ⊢; omega)]
    simp only [storeGlyphs, hg2, orBits, List.length_cons]

theorem updatePS_loop_high (chars : List Int) :
    ∀ (i : Nat) (s : Station), (∃ c ∈ chars, 128 ≤ c ∧ c ≤ 255) →
      updatePS_loop chars i s = none := by
  induction chars with
  | nil =>
    intro i s h
    obtain ⟨c, hc, -⟩ := h
    exact absurd hc (List.not_mem_nil c)
  | cons d ds ih =>
    intro i s h
    unfold updatePS_loop
    cases hd : lcd_char (toChar d) with
    | none => rfl
    | some g =>
      have hds : ∃ c ∈ ds, 128 ≤ c ∧ c ≤ 255 := by
        obtain ⟨c, hc, hr⟩ := h
        rcases List.mem_cons.mp hc with e | e
        · subst e
          rw [lcd_char_high c hr] at hd
          exact absurd hd (by simp)
        · exact ⟨c, e, hr⟩
      dsimp only
      split_ifs
      · exact ih _ _ hds
      · rfl

theorem updatePS_high (s : Station) (pos : Int) (chars : List Int)
    (h0 : 0 ≤ pos) (h8 : pos + (chars.length : Int) ≤ 8)
    (h : ∃ c ∈ chars, 128 ≤ c ∧ c ≤ 255) : s.updatePS pos chars = none := by
  unfold updatePS
  rw [if_neg (by omega)]
  dsimp only
  rw [updatePS_loop_high chars _ _ h]

theorem updatePS_reject (s : Station) (pos : Int) (chars : List Int)
    (h : pos < 0 ∨ pos + (chars.length : Int) > 8) : s.updatePS pos chars = some s := by
  unfold updatePS
  rw [if_pos h]

theorem updatePS_accept (s : Station) (pos : Int) (chars : List Int)
    (h0 : 0 ≤ pos) (h8 : pos + (chars.length : Int) ≤ 8) (hv : validChars chars)
    (hps : s.ps_.length = 8) :
    s.updatePS pos chars =
      some { s with
        has_ps_ :=
          if orBits (if resets s pos then 0 else s.ps_received_bitfield_) pos.toNat chars.length
              = 255 then true
          else if resets s pos then false else s.has_ps_,
        ps_received_bitfield_ :=
          orBits (if resets s pos then 0 else s.ps_received_bitfield_) pos.toNat chars.length,
        ps_ := storeGlyphs s.ps_ pos.toNat chars,
        prev_ps_pos_ := pos } := by
  unfold updatePS
  rw [if_neg (by omega)]
  by_cases hr : resets s pos
  · have hr2 : pos ≠ s.prev_ps_pos_ + 2 ∨ pos = s.prev_ps_pos_ := hr
    simp only [if_pos hr2, if_pos hr]
    rw [updatePS_loop_eq chars _ _ hv (by simp only [hps]; omega)]
    simp only
    split <;> rfl
  · have hr2 : ¬ (pos ≠ s.prev_ps_pos_ + 2 ∨ pos = s.prev_ps_pos_) := hr
    simp only [if_neg hr2, if_neg hr]
    rw [updatePS_loop_eq chars _ _ hv (by simp only [hps]; omega)]
    simp only
    split <;> rfl

theorem storeGlyphs_length (chars : List Int) :
    ∀ (ps : List String) (i : Nat), (storeGlyphs ps i chars).length = ps.length := by
  induction chars with
  | nil => intro ps i; rfl
  | cons c cs ih =>
    intro ps i
    unfold storeGlyphs
    split
    · rfl
    · rw [ih, List.length_set]

theorem updatePS_accept_fields (s : Station) (pos : Int) (chars : List Int)
    (h0 : 0 ≤ pos) (h8 : pos + (chars.length : Int) ≤ 8) (hv : validChars chars)
    (hps : s.ps_.length = 8) :
    ∃ s2, s.updatePS pos chars = some s2 ∧
      s2.ps_received_bitfield_ =
        orBits (if resets s pos then 0 else s.ps_received_bitfield_) pos.toNat chars.length ∧
      s2.ps_ = storeGlyphs s.ps_ pos.toNat chars ∧
      s2.prev_ps_pos_ = pos ∧
      s2.has_ps_ =
        (if orBits (if resets s pos then 0 else s.ps_received_bitfield_) pos.toNat chars.length
            = 255 then true
         else if resets s pos then false else s.has_ps_) :=
  ⟨_, updatePS_accept s pos chars h0 h8 hv hps, rfl, rfl, rfl, rfl⟩

theorem orBits_name_complete (m : Nat) (h : m < 256) :
    m ||| 1 ||| 2 ||| 4 ||| 8 ||| 16 ||| 32 ||| 64 ||| 128 = 255 := by
  interval_cases m <;> rfl

theorem storeGlyphs_set_comm (cs : List Int) :
    ∀ (ps : List String) (i j : Nat) (g : String), j < i →
      storeGlyphs (ps.set j g) i cs = (storeGlyphs ps i cs).set j g := by
  induction cs with
  | nil => intro ps i j g _; rfl
  | cons c cs ih =>
    intro ps i j g hj
    unfold storeGlyphs
    split
    · rfl
    · rename_i g2 _
      rw [List.set_comm g g2 ps (Nat.ne_of_lt hj), ih _ (i + 1) j g (by omega)]

theorem storeGlyphs_idem (cs : List Int) :
    ∀ (ps : List String) (i : Nat),
      storeGlyphs (storeGlyphs ps i cs) i cs = storeGlyphs ps i cs := by
  induction cs with
  | nil => intro ps i; rfl
  | cons c cs ih =>
    intro ps i
    cases hc : lcd_char (toChar c) with
    | none => simp only [storeGlyphs, hc]
    | some g =>
      simp only [storeGlyphs, hc]
      rw [← storeGlyphs_set_comm cs _ (i + 1) i g (by omega), List.set_set, ih]

theorem orBits_lt (n : Nat) :
    ∀ (m i k : Nat), m < 2 ^ k → i + n ≤ k → orBits m i n < 2 ^ k := by
  induction n with
  | zero => intro m i k hm _; exact hm
  | succ n ih =>
    intro m i k hm hk
    unfold orBits
    apply ih _ (i + 1) k _ (by omega)
    apply Nat.or_lt_two_pow hm
    rw [Nat.one_shiftLeft]
    exact Nat.pow_lt_pow_right (by decide) (by omega)

theorem updatePS_loop_some (chars : List Int) :
    ∀ (i : Nat) (s t : Station), updatePS_loop chars i s = some t →
      t = { s with ps_received_bitfield_ := orBits s.ps_received_bitfield_ i chars.length,
                   ps_ := storeGlyphs s.ps_ i chars } := by
  induction chars with
  | nil =>
    intro i s t h
    simp only [updatePS_loop, Option.some.injEq] at h
    rw [← h]
    rfl
  | cons c cs ih =>
    intro i s t h
    cases hc : lcd_char (toChar c) with
    | none => simp [updatePS_loop, hc] at h
    | some g =>
      by_cases hi : i < s.ps_.length
      · simp only [updatePS_loop, hc, if_pos hi] at h
        rw [ih (i + 1) _ t h]
        simp only [storeGlyphs, hc, orBits, List.length_cons]
      · simp [updatePS_loop, hc, hi] at h

theorem updatePS_some (s t : Station) (pos : Int) (chars : List Int)
    (h : s.updatePS pos chars = some t) (h0 : 0 ≤ pos) (h8 : pos + (chars.length : Int) ≤ 8) :
    t = { s with
        has_ps_ :=
          if orBits (if resets s pos then 0 else s.ps_received_bitfield_) pos.toNat chars.length
              = 255 then true
          else if resets s pos then false else s.has_ps_,
        ps_received_bitfield_ :=
          orBits (if resets s pos then 0 else s.ps_received_bitfield_) pos.toNat chars.length,
        ps_ := storeGlyphs s.ps_ pos.toNat chars,
        prev_ps_pos_ := pos } := by
  unfold updatePS at h
  rw [if_neg (by omega)] at h
  by_cases hr : resets s pos
  · have hr2 : pos ≠ s.prev_ps_pos_ + 2 ∨ pos = s.prev_ps_pos_ := hr
    simp only [if_pos hr2] at h
    cases hl : updatePS_loop chars pos.toNat
        { s with has_ps_ := false, ps_received_bitfield_ := 0 } with
    | none => simp [hl] at h
    | some u =>
      have hu := updatePS_loop_some chars _ _ u hl
      rw [hl] at h
      simp only [if_pos hr]
      subst hu
      simp only at h
      split at h <;> rename_i hm <;> simp only [Option.some.injEq] at h <;> rw [← h]
      · simp only [if_pos hm]
      · simp only [if_neg hm]
  · have hr2 : ¬ (pos ≠ s.prev_ps_pos_ + 2 ∨ pos = s.prev_ps_pos_) := hr
    simp only [if_neg hr2] at h
    cases hl : updatePS_loop chars pos.toNat s with
    | none => simp [hl] at h
    | some u =>
      have hu := updatePS_loop_some chars _ _ u hl
      rw [hl] at h
      simp only [if_neg hr]
      subst hu
      simp only at h
      split at h <;> rename_i hm <;> simp only [Option.some.injEq] at h <;> rw [← h]
      · simp only [if_pos hm]
      · simp only [if_neg hm]

theorem orBits_testBit (n : Nat) :
    ∀ (m i j : Nat),
      (orBits m i n).testBit j = (m.testBit j || decide (i ≤ j ∧ j < i + n)) := by
  induction n with
  | zero =>
    intro m i j
    have h : ¬ (i ≤ j ∧ j < i + 0) := by omega
    simp [orBits, h]
  | succ n ih =>
    intro m i j
    unfold orBits
    rw [ih, Nat.testBit_or, Nat.one_shiftLeft, Nat.testBit_two_pow, Bool.or_assoc]
    congr 1
    by_cases h1 : i = j
    · have h2 : i ≤ j ∧ j < i + (n + 1) := by omega
      simp [h1, h2]
    · by_cases h2 : i + 1 ≤ j ∧ j < i + 1 + n
      · have h3 : i ≤ j ∧ j < i + (n + 1) := by omega
        simp [h1, h2, h3]
      · have h3 : ¬ (i ≤ j ∧ j < i + (n + 1)) := by omega
        simp [h1, h2, h3]

theorem orBits_full (n : Nat) : ∀ (i : Nat), i + n ≤ 8 → orBits 255 i n = 255 := by
  induction n with
  | zero => intro i _; rfl
  | succ n ih =>
    intro i hi
    unfold orBits
    have h : 255 ||| 1 <<< i = 255 := by
      have hi8 : i < 8 := by omega
      interval_cases i <;> rfl
    rw [h]
    exact ih (i + 1) (by omega)

/-- The ready flag and the mask after a call of `updatePS` that returns: the flag is
set exactly when the mask is `0xff`, and the mask stays within 8 bits. -/
theorem updatePS_ready_iff (s t : Station) (pos : Int) (chars : List Int)
    (hinv : s.has_ps_ = true ↔ s.ps_received_bitfield_ = 255)
    (hm : s.ps_received_bitfield_ < 256) (h : s.updatePS pos chars = some t) :
    (t.has_ps_ = true ↔ t.ps_received_bitfield_ = 255) ∧ t.ps_received_bitfield_ < 256 := by
  by_cases hrej : pos < 0 ∨ pos + (chars.length : Int) > 8
  · rw [updatePS_reject s pos chars hrej, Option.some.injEq] at h
    rw [← h]
    exact ⟨hinv, hm⟩
  · have h0 : 0 ≤ pos := by omega
    have h8 : pos + (chars.length : Int) ≤ 8 := by omega
    have ht := updatePS_some s t pos chars h h0 h8
    have hb : (if resets s pos then 0 else s.ps_received_bitfield_) < 2 ^ 8 := by
      split
      · decide
      · exact hm
    have hlt := orBits_lt chars.length _ pos.toNat 8 hb (by omega)
    rw [ht]
    refine ⟨?_, hlt⟩
    simp only
    by_cases hM : orBits (if resets s pos then 0 else s.ps_received_bitfield_) pos.toNat
        chars.length = 255
    · simp [hM]
    · by_cases hr : resets s pos
      · simp only [if_pos hr] at hM
        simp [hM, hr]
      · simp only [if_neg hr] at hM
        simp only [if_neg hr, if_neg hM]
        constructor
        · intro hs
          exfalso
          apply hM
          rw [hinv.mp hs]
          exact orBits_full _ _ (by omega)
        · intro hs
          exact absurd hs hM

theorem addAltFreq_frame (s : Station) (c : Nat) :
    s.addAltFreq c = { s with alt_freqs_ := (s.addAltFreq c).alt_freqs_,
                              num_alt_freqs_ := (s.addAltFreq c).num_alt_freqs_ } := by
  unfold addAltFreq
  split_ifs <;> rfl

theorem decode1_noPIN_nonPaging (s : Station) (g : Group) (tng : Nat) :
    nonPaging (s.decode1_noPIN g tng) = nonPaging s := by
  unfold decode1_noPIN
  dsimp only
  split_ifs <;> rfl

theorem decode1_slc_nonPaging (s : Station) (g : Group) (tng : Nat) :
    nonPaging (s.decode1_slc g tng) = nonPaging s := by
  unfold decode1_slc
  dsimp only
  split_ifs
  all_goals first | rfl | exact (decode1_noPIN_nonPaging _ g tng).trans rfl

theorem decode1_nonPaging (s : Station) (g : Group) :
    nonPaging (s.decode1 g) = nonPaging s := by
  unfold decode1
  dsimp only
  split_ifs <;> first | rfl | exact (decode1_slc_nonPaging _ g _).trans rfl

theorem decode2_eq (s : Station) (g : Group) : s.decode2 g = s := by
  unfold decode2 updateRadioText
  dsimp only
  split_ifs <;> rfl

theorem decode4_frame (s : Station) (g : Group) :
    s.decode4 g = { s with clock_time_ := (s.decode4 g).clock_time_ } := by
  unfold decode4
  by_cases h : g.num_blocks = 4
  · simp only [if_pos h]
  · simp only [if_neg h]

theorem updatePS_nonName (s t : Station) (pos : Int) (chars : List Int)
    (h : s.updatePS pos chars = some t) : nonName t = nonName s := by
  by_cases hrej : pos < 0 ∨ pos + (chars.length : Int) > 8
  · rw [updatePS_reject s pos chars hrej, Option.some.injEq] at h
    rw [h]
  · rw [updatePS_some s t pos chars h (by omega) (by omega)]
    rfl

theorem addAltFreq_nonAltFreq (s : Station) (c : Nat) :
    nonAltFreq (s.addAltFreq c) = nonAltFreq s := by
  unfold addAltFreq
  split_ifs <;> rfl

/-- The state of `decode0` after its loop over the two alternate-frequency codes. -/
theorem decode0_eq (s : Station) (g : Group) :
    s.decode0 g =
      if g.num_blocks < 3 then some (decode0_flags s g)
      else if g.num_blocks < 4 then some (decode0_altFreqs (decode0_flags s g) g)
      else (decode0_altFreqs (decode0_flags s g) g).updatePS ((bits g.block2 0 2 : Int) * 2)
        [(bits g.block4 8 8 : Int), (bits g.block4 0 8 : Int)] := by
  unfold decode0 decode0_flags decode0_altFreqs
  rfl

theorem decode0_altFreqs_nonAltFreq (s : Station) (g : Group) :
    nonAltFreq (decode0_altFreqs s g) = nonAltFreq s := by
  unfold decode0_altFreqs
  split
  · rw [addAltFreq_nonAltFreq, addAltFreq_nonAltFreq]
  · rfl

theorem add_eq (s : Station) (g : Group) :
    s.add g =
      if g.type = 0 then (add_header s g).decode0 g
      else if g.type = 1 then some ((add_header s g).decode1 g)
      else if g.type = 2 then some (add_header s g)
      else if g.type = 4 then some ((add_header s g).decode4 g)
      else some (add_header s g) := by
  unfold add add_header
  simp only [decode2_eq]

theorem storeGlyphs_get_other (cs : List Int) :
    ∀ (ps : List String) (i j : Nat), j < i ∨ i + cs.length ≤ j →
      (storeGlyphs ps i cs).get? j = ps.get? j := by
  induction cs with
  | nil => intro ps i j _; rfl
  | cons c cs ih =>
    intro ps i j hj
    unfold storeGlyphs
    split
    · rfl
    · rename_i g _
      simp only [List.length_cons] at hj
      rw [ih _ (i + 1) j (by omega), List.get?_eq_getElem?, List.get?_eq_getElem?,
        List.getElem?_set_ne (by omega)]

theorem updatePS_defined (s : Station) (pos : Int) (chars : List Int)
    (hps : s.ps_.length = 8) (hv : validChars chars) : ∃ t, s.updatePS pos chars = some t := by
  by_cases hrej : pos < 0 ∨ pos + (chars.length : Int) > 8
  · exact ⟨s, updatePS_reject s pos chars hrej⟩
  · exact ⟨_, updatePS_accept s pos chars (by omega) (by omega) hv hps⟩

theorem add_defined (s : Station) (g : Group) (hps : s.ps_.length = 8)
    (hv : g.type = 0 → 4 ≤ g.num_blocks →
      validChars [(bits g.block4 8 8 : Int), (bits g.block4 0 8 : Int)]) :
    ∃ t, s.add g = some t := by
  rw [add_eq]
  split_ifs with h0
  · rw [decode0_eq]
    split_ifs with h3 h4
    · exact ⟨_, rfl⟩
    · exact ⟨_, rfl⟩
    · apply updatePS_defined _ _ _ _ (hv h0 (by omega))
      have h := decode0_altFreqs_nonAltFreq (decode0_flags (add_header s g) g) g
      simp only [nonAltFreq, Prod.mk.injEq] at h
      rw [h.2.1]
      exact hps
  all_goals exact ⟨_, rfl⟩

/-- What `add` does to the ready flag and the mask: it leaves them alone, or it ends in a
call of `updatePS` on a state that has the flag and the mask of the initial state. -/
theorem add_name_cases (s t : Station) (g : Group) (h : s.add g = some t) :
    (t.has_ps_ = s.has_ps_ ∧ t.ps_received_bitfield_ = s.ps_received_bitfield_) ∨
    ∃ (u : Station) (pos : Int) (chars : List Int),
      u.has_ps_ = s.has_ps_ ∧ u.ps_received_bitfield_ = s.ps_received_bitfield_ ∧
      u.updatePS pos chars = some t := by
  rw [add_eq] at h
  split_ifs at h with h0 h1 h2 h4
  · rw [decode0_eq] at h
    have ha := decode0_altFreqs_nonAltFreq (decode0_flags (add_header s g) g) g
    simp only [nonAltFreq, Prod.mk.injEq] at ha
    split_ifs at h with h3 h4
    · rw [Option.some.injEq] at h
      rw [← h]
      exact Or.inl ⟨rfl, rfl⟩
    · rw [Option.some.injEq] at h
      rw [← h]
      exact Or.inl ⟨ha.2.2.2.2.2.2.1, ha.2.2.2.2.2.2.2.1⟩
    · exact Or.inr ⟨_, _, _, ha.2.2.2.2.2.2.1, ha.2.2.2.2.2.2.2.1, h⟩
  · rw [Option.some.injEq] at h
    have hd := decode1_nonPaging (add_header s g) g
    simp only [nonPaging, Prod.mk.injEq] at hd
    rw [← h]
    exact Or.inl ⟨hd.2.2.2.2.2.2.2.2.1, hd.2.2.2.2.2.2.2.2.2.1⟩
  · rw [Option.some.injEq] at h
    rw [← h]
    exact Or.inl ⟨rfl, rfl⟩
  · rw [Option.some.injEq] at h
    rw [← h, decode4_frame]
    exact Or.inl ⟨rfl, rfl⟩
  · rw [Option.some.injEq] at h
    rw [← h]
    exact Or.inl ⟨rfl, rfl⟩

/-- What every call of `add` that returns leaves in the three members of the header:
the program identifier of the initial state and the two values stored at the head of
`add`. -/
theorem add_keeps_header (s t : Station) (g : Group) (h : s.add g = some t) :
    t.pi_ = s.pi_ ∧ t.is_tp_ = decide (bits g.block2 10 1 ≠ 0) ∧ t.pty_ = bits g.block2 5 5 := by
  rw [add_eq] at h
  split_ifs at h with h0 h1 h2 h4
  · rw [decode0_eq] at h
    have ha := decode0_altFreqs_nonAltFreq (decode0_flags (add_header s g) g) g
    simp only [nonAltFreq, Prod.mk.injEq] at ha
    split_ifs at h with h3 h4
    · rw [Option.some.injEq] at h
      rw [← h]
      exact ⟨rfl, rfl, rfl⟩
    · rw [Option.some.injEq] at h
      rw [← h]
      exact ⟨ha.1, ha.2.2.1, ha.2.2.2.1⟩
    · have hn := updatePS_nonName _ _ _ _ h
      simp only [nonName, Prod.mk.injEq] at hn
      exact ⟨hn.1.trans ha.1, hn.2.1.trans ha.2.2.1, hn.2.2.1.trans ha.2.2.2.1⟩
  · rw [Option.some.injEq] at h
    have hd := decode1_nonPaging (add_header s g) g
    simp only [nonPaging, Prod.mk.injEq] at hd
    rw [← h]
    exact ⟨hd.1, hd.2.2.1, hd.2.2.2.1⟩
  · rw [Option.some.injEq] at h
    rw [← h]
    exact ⟨rfl, rfl, rfl⟩
  · rw [Option.some.injEq] at h
    rw [← h, decode4_frame]
    exact ⟨rfl, rfl, rfl⟩
  · rw [Option.some.injEq] at h
    rw [← h]
    exact ⟨rfl, rfl, rfl⟩

theorem decode1_typeA (s : Station) (g : Group) (h4 : ¬ g.num_blocks < 4)
    (hA : g.type_ab = TypeAB.TYPE_A) :
    s.decode1 g = decode1_slc (decode1_common s g) g (bits g.block2 2 3) := by
  unfold decode1 decode1_common
  rw [if_neg h4]
  dsimp only
  rw [if_pos hA]
  split_ifs <;> rfl

theorem decode1_noPIN_nonPager (s : Station) (g : Group) (tng : Nat) :
    nonPager (s.decode1_noPIN g tng) = nonPager s := by
  unfold decode1_noPIN
  dsimp only
  split_ifs <;> rfl

theorem decode1_slc_0 (s : Station) (g : Group) (tng : Nat) (h : bits g.block3 12 3 = 0) :
    nonPager (s.decode1_slc g tng) =
      nonPager { s with ecc_ := some (bits g.block3 0 8), cc_ := some (bits g.block1 12 4) } := by
  unfold decode1_slc
  dsimp only
  rw [if_pos h]
  have e := decode1_noPIN_nonPager
    (if tng ≠ 0 then { s with pager_opc_ := some (bits g.block3 8 4) } else s) g tng
  have e2 : nonPager (if tng ≠ 0 then { s with pager_opc_ := some (bits g.block3 8 4) } else s)
      = nonPager s := by
    split_ifs <;> rfl
  rw [e2] at e
  simp only [nonPager, nonPaging, Prod.mk.injEq] at e ⊢
  obtain ⟨⟨e1, e2, e3, e4, e5, e6, e7, e8, e9, e10, e11, e12⟩, f1, f2, f3, f4, f5, f6, f7, f8, f9⟩ := e
  exact ⟨⟨e1, e2, e3, e4, e5, e6, e7, e8, e9, e10, e11, e12⟩, f1, f2, f3, f4, trivial, trivial, f7, f8, f9⟩

theorem decode1_slc_1 (s : Station) (g : Group) (tng : Nat) (h : bits g.block3 12 3 = 1) :
    s.decode1_slc g tng = { s with tmc_id_ := some (bits g.block3 0 12) } := by
  unfold decode1_slc
  dsimp only
  rw [if_neg (by omega), if_pos h]

theorem decode1_slc_2 (s : Station) (g : Group) (tng : Nat) (h : bits g.block3 12 3 = 2) :
    nonPager (s.decode1_slc g tng) = nonPager s := by
  unfold decode1_slc
  dsimp only
  rw [if_neg (by omega), if_neg (by omega), if_pos h, decode1_noPIN_nonPager]
  split_ifs <;> rfl

theorem decode1_slc_3 (s : Station) (g : Group) (tng : Nat) (h : bits g.block3 12 3 = 3) :
    s.decode1_slc g tng = { s with lang_ := some (bits g.block3 0 8) } := by
  unfold decode1_slc
  dsimp only
  rw [if_neg (by omega), if_neg (by omega), if_neg (by omega), if_pos h]

theorem decode1_slc_7 (s : Station) (g : Group) (tng : Nat) (h : bits g.block3 12 3 = 7) :
    s.decode1_slc g tng = { s with ews_channel_ := some (bits g.block3 0 12) } := by
  unfold decode1_slc
  dsimp only
  rw [if_neg (by omega), if_neg (by omega), if_neg (by omega), if_neg (by omega),
    if_neg (by omega), if_pos h]

theorem decode1_slc_456 (s : Station) (g : Group) (tng : Nat)
    (h : bits g.block3 12 3 = 4 ∨ bits g.block3 12 3 = 5 ∨ bits g.block3 12 3 = 6) :
    s.decode1_slc g tng = s := by
  unfold decode1_slc
  dsimp only
  rw [if_neg (by omega), if_neg (by omega), if_neg (by omega), if_neg (by omega)]
  split_ifs <;> first | rfl | omega


theorem decode1_noPIN_commonPart (s : Station) (g : Group) (tng : Nat) :
    commonPart (s.decode1_noPIN g tng) = commonPart s := by
  unfold decode1_noPIN
  dsimp only
  split_ifs <;> rfl

theorem decode1_slc_commonPart (s : Station) (g : Group) (tng : Nat) :
    commonPart (s.decode1_slc g tng) = commonPart s := by
  unfold decode1_slc
  dsimp only
  split_ifs
  all_goals first | rfl | exact (decode1_noPIN_commonPart _ g tng).trans rfl

theorem add_type1A (s : Station) (g : Group) (h1 : g.type = 1)
    (hA : g.type_ab = TypeAB.TYPE_A) (h4 : g.num_blocks = 4) :
    s.add g =
      some (decode1_slc (decode1_common (add_header s g) g) g (bits g.block2 2 3)) := by
  rw [add_eq, if_neg (by omega), if_pos h1, decode1_typeA _ g (by omega) hA]

theorem orBits_eq_or (m i n : Nat) : orBits m i n = m ||| orBits 0 i n := by
  apply Nat.eq_of_testBit_eq
  intro j
  simp [Nat.testBit_or, orBits_testBit]

/-! ### The clock of group 4A -/

theorem leap_cases (y : Int) :
    (is_leap_year y = true ∧ y % 4 = 0 ∧ (y % 100 ≠ 0 ∨ y % 400 = 0)) ∨
    (is_leap_year y = false ∧ ¬ (y % 4 = 0 ∧ (y % 100 ≠ 0 ∨ y % 400 = 0))) := by
  unfold is_leap_year
  by_cases h : y % 4 = 0 ∧ (y % 100 ≠ 0 ∨ y % 400 = 0)
  · exact Or.inl ⟨decide_eq_true h, h.1, h.2⟩
  · exact Or.inr ⟨decide_eq_false h, h⟩

theorem dbm_values (y : Int) :
    days_before_month y 1 = 0 ∧ days_before_month y 2 = 31 ∧
    days_before_month y 3 = 31 + days_in_month y 2 ∧
    days_before_month y 4 = 62 + days_in_month y 2 ∧
    days_before_month y 5 = 92 + days_in_month y 2 ∧
    days_before_month y 6 = 123 + days_in_month y 2 ∧
    days_before_month y 7 = 153 + days_in_month y 2 ∧
    days_before_month y 8 = 184 + days_in_month y 2 ∧
    days_before_month y 9 = 215 + days_in_month y 2 ∧
    days_before_month y 10 = 245 + days_in_month y 2 ∧
    days_before_month y 11 = 276 + days_in_month y 2 ∧
    days_before_month y 12 = 306 + days_in_month y 2 := by
  refine ⟨?_, ?_, ?_, ?_, ?_, ?_, ?_, ?_, ?_, ?_, ?_, ?_⟩ <;>
    simp [days_before_month, List.range_succ, days_in_month] <;> ring

/-- The year part: the day number of the last day of February of the year `y + 1900` and
of the last day of the year before `y + 1901`, from `a = ⌊365.25 y⌋`. -/
theorem year_part (y a : Int) (hy : 0 ≤ y ∧ y ≤ 199) (ha : a = 1461 * y / 4) :
    days_before_year (y + 1900) + 31 + days_in_month (y + 1900) 2 = a + 693654 ∧
    days_before_year (y + 1901) = a + 693960 ∧
    (y ≤ 198 → days_in_month (y + 1901) 2 = 28 + (1461 * (y + 1) / 4 - a - 365)) ∧
    days_in_month (y + 1901) 2 ≥ 28 := by
  obtain ⟨u, v, huv, hv0, hv4⟩ : ∃ u v : Int, y = 4 * u + v ∧ 0 ≤ v ∧ v < 4 :=
    ⟨y / 4, y % 4, by omega, by omega, by omega⟩
  have hc : y = 0 ∨ (1 ≤ y ∧ y ≤ 99) ∨ y = 100 ∨ (101 ≤ y ∧ y ≤ 199) := by omega
  unfold days_before_year days_in_month
  simp only [if_true]
  rcases leap_cases (y + 1900) with ⟨e1, l1⟩ | ⟨e1, l1⟩ <;>
    rcases leap_cases (y + 1901) with ⟨e2, l2⟩ | ⟨e2, l2⟩ <;>
    simp only [e1, e2, if_true, Bool.false_eq_true, if_false] <;>
    subst huv <;> interval_cases v <;> rcases hc with hc | hc | hc | hc <;> omega

theorem dim_values (y : Int) :
    days_in_month y 1 = 31 ∧ days_in_month y 3 = 31 ∧ days_in_month y 4 = 30 ∧
    days_in_month y 5 = 31 ∧ days_in_month y 6 = 30 ∧ days_in_month y 7 = 31 ∧
    days_in_month y 8 = 31 ∧ days_in_month y 9 = 30 ∧ days_in_month y 10 = 31 ∧
    days_in_month y 11 = 30 ∧ days_in_month y 12 = 31 := by
  simp [days_in_month]

theorem date_core (m y a mo0 b : Int) (hm : 15079 ≤ m ∧ m ≤ 88127)
    (hy : y = (20 * m - 301564) / 7305) (ha : a = 1461 * y / 4)
    (hmo : mo0 = (10000 * m - 149561000 - 10000 * a) / 306001)
    (hb : b = 306001 * mo0 / 10000) :
    valid_date ((if mo0 = 14 ∨ mo0 = 15 then y + 1 else y) + 1900)
      ((if mo0 = 14 ∨ mo0 = 15 then mo0 - 12 else mo0) - 1) (m - 14956 - a - b) ∧
    mjd_of_gregorian ((if mo0 = 14 ∨ mo0 = 15 then y + 1 else y) + 1900)
      ((if mo0 = 14 ∨ mo0 = 15 then mo0 - 12 else mo0) - 1) (m - 14956 - a - b) = m ∧
    1900 ≤ (if mo0 = 14 ∨ mo0 = 15 then y + 1 else y) + 1900 ∧
    (if mo0 = 14 ∨ mo0 = 15 then y + 1 else y) + 1900 ≤ 2100 := by
  have hyb : 0 ≤ y ∧ y ≤ 199 := by omega
  have hmb : 4 ≤ mo0 ∧ mo0 ≤ 15 := by omega
  obtain ⟨p1, p2, p3, p4⟩ := year_part y a hyb ha
  obtain ⟨-, -, d3, d4, d5, d6, d7, d8, d9, d10, d11, d12⟩ := dbm_values (y + 1900)
  obtain ⟨c1, c2, -⟩ := dbm_values (y + 1901)
  obtain ⟨-, e3, e4, e5, e6, e7, e8, e9, e10, e11, e12⟩ := dim_values (y + 1900)
  obtain ⟨f1, -⟩ := dim_values (y + 1901)
  have hy1 : y + 1 + 1900 = y + 1901 := by ring
  have h2100 : y = 199 → days_in_month (y + 1901) 2 = 28 := by
    intro h
    rw [h]
    decide
  obtain ⟨hlo, hhi⟩ := hmb
  unfold valid_date mjd_of_gregorian
  interval_cases mo0 <;> norm_num at hb <;> subst hb <;> norm_num <;>
    simp only [hy1, d3, d4, d5, d6, d7, d8, d9, d10, d11, d12, c1, c2, e3, e4, e5, e6, e7, e8,
      e9, e10, e11, e12, f1]
  all_goals omega

theorem mjd_date_int_correct (m : Int) (hm : 15079 ≤ m ∧ m ≤ 88127) :
    valid_date (mjd_date_int m).1 (mjd_date_int m).2.1 (mjd_date_int m).2.2 ∧
    mjd_of_gregorian (mjd_date_int m).1 (mjd_date_int m).2.1 (mjd_date_int m).2.2 = m ∧
    1900 ≤ (mjd_date_int m).1 ∧ (mjd_date_int m).1 ≤ 2100 :=
  date_core m _ _ _ _ hm rfl rfl rfl rfl

theorem toInt_nonneg_div (n : Int) (d : Nat) (hn : 0 ≤ n) :
    toInt ((n : ℚ) / (d : ℚ)) = n / (d : Int) := by
  unfold toInt
  rw [if_pos (div_nonneg (by exact_mod_cast hn) (by positivity))]
  exact Rat.floor_intCast_div_natCast n d

theorem toInt_intCast (n : Int) : toInt (n : ℚ) = n := by
  unfold toInt
  split <;> simp

theorem mjd_date_eq_int (m : Int) (hm : 15079 ≤ m) : mjd_date (m : ℚ) = mjd_date_int m := by
  have s1 : toInt (((m : ℚ) - 15078.2) / 365.25) = (20 * m - 301564) / 7305 := by
    have e : ((m : ℚ) - 15078.2) / 365.25 = ((20 * m - 301564 : Int) : ℚ) / ((7305 : Nat) : ℚ) := by
      push_cast
      norm_num
      ring
    rw [e, toInt_nonneg_div _ _ (by omega)]
    rfl
  have hy0 : 0 ≤ (20 * m - 301564) / 7305 := by omega
  have s2 : ∀ y : Int, 0 ≤ y → toInt ((y : ℚ) * 365.25) = 1461 * y / 4 := by
    intro y hy
    have e : (y : ℚ) * 365.25 = ((1461 * y : Int) : ℚ) / ((4 : Nat) : ℚ) := by
      push_cast
      norm_num
      ring
    rw [e, toInt_nonneg_div _ _ (by omega)]
    rfl
  have s3 : ∀ a : Int, 0 ≤ 10000 * m - 149561000 - 10000 * a →
      toInt (((m : ℚ) - 14956.1 - (a : ℚ)) / 30.6001) =
        (10000 * m - 149561000 - 10000 * a) / 306001 := by
    intro a h
    have e : ((m : ℚ) - 14956.1 - (a : ℚ)) / 30.6001 =
        ((10000 * m - 149561000 - 10000 * a : Int) : ℚ) / ((306001 : Nat) : ℚ) := by
      push_cast
      norm_num
      ring
    rw [e, toInt_nonneg_div _ _ h]
    rfl
  have s4 : ∀ k : Int, 0 ≤ k → toInt ((k : ℚ) * 30.6001) = 306001 * k / 10000 := by
    intro k hk
    have e : (k : ℚ) * 30.6001 = ((306001 * k : Int) : ℚ) / ((10000 : Nat) : ℚ) := by
      push_cast
      norm_num
      ring
    rw [e, toInt_nonneg_div _ _ (by omega)]
    rfl
  have s5 : ∀ a b : Int, toInt ((m : ℚ) - 14956 - (a : ℚ) - (b : ℚ)) = m - 14956 - a - b := by
    intro a b
    have e : (m : ℚ) - 14956 - (a : ℚ) - (b : ℚ) = ((m - 14956 - a - b : Int) : ℚ) := by
      push_cast
      ring
    rw [e, toInt_intCast]
  have hnum : 0 ≤ 10000 * m - 149561000 - 10000 * (1461 * ((20 * m - 301564) / 7305) / 4) := by
    omega
  have hmo : 0 ≤ (10000 * m - 149561000 - 10000 * (1461 * ((20 * m - 301564) / 7305) / 4)) / 306001 :=
    Int.ediv_nonneg hnum (by decide)
  unfold mjd_date mjd_date_int
  simp only [s1, s2 _ hy0, s3 _ hnum, s4 _ hmo, s5]

theorem decode4_eq4 (s : Station) (g : Group) (h4 : g.num_blocks = 4) :
    s.decode4 g =
      { s with clock_time_ := some (clock_snprintf
          (mjd_date (toInt ((decode4_mjd0 g : ℚ) + ((decode4_ks g : ℚ) / 2.0) / 24.0) : ℚ)).1
          (mjd_date (toInt ((decode4_mjd0 g : ℚ) + ((decode4_ks g : ℚ) / 2.0) / 24.0) : ℚ)).2.1
          (mjd_date (toInt ((decode4_mjd0 g : ℚ) + ((decode4_ks g : ℚ) / 2.0) / 24.0) : ℚ)).2.2
          (Int.tmod (toInt ((decode4_hour g : ℚ) + (decode4_ks g : ℚ) / 2.0)) 24)
          ((decode4_minute g : Int) +
            toInt (((decode4_ks g : ℚ) / 2.0 - (toInt ((decode4_ks g : ℚ) / 2.0) : ℚ)) * 60))
          (toInt ((decode4_ks g : ℚ) / 2.0))
          (toInt (((decode4_ks g : ℚ) / 2.0 - (toInt ((decode4_ks g : ℚ) / 2.0) : ℚ)) * 60))) } := by
  unfold decode4 mjd_date decode4_mjd0 decode4_ks decode4_hour decode4_minute
  simp only [if_pos h4]

theorem decode4_nonneg_offset (s : Station) (g : Group) (h4 : g.num_blocks = 4)
    (hk : 0 ≤ decode4_ks g) (hk2 : decode4_ks g < 48) (hm : 15079 ≤ decode4_mjd0 g) :
    s.decode4 g =
      { s with clock_time_ := some (clock_snprintf
          (mjd_date_int (decode4_mjd0 g)).1 (mjd_date_int (decode4_mjd0 g)).2.1
          (mjd_date_int (decode4_mjd0 g)).2.2
          (((decode4_hour g : Int) + decode4_ks g / 2) % 24)
          ((decode4_minute g : Int) + 30 * (decode4_ks g % 2))
          (decode4_ks g / 2) (30 * (decode4_ks g % 2))) } := by
  have t1 : toInt ((decode4_ks g : ℚ) / 2.0) = decode4_ks g / 2 := by
    have e : (decode4_ks g : ℚ) / 2.0 = ((decode4_ks g : Int) : ℚ) / ((2 : Nat) : ℚ) := by
      norm_num
    rw [e, toInt_nonneg_div _ _ hk]
    rfl
  have t2 : toInt (((decode4_ks g : ℚ) / 2.0 - ((decode4_ks g / 2 : Int) : ℚ)) * 60) =
      30 * (decode4_ks g % 2) := by
    have e : ((decode4_ks g : ℚ) / 2.0 - ((decode4_ks g / 2 : Int) : ℚ)) * 60 =
        ((30 * decode4_ks g - 60 * (decode4_ks g / 2) : Int) : ℚ) := by
      push_cast
      norm_num
      ring
    rw [e, toInt_intCast]
    omega
  have t3 : toInt ((decode4_mjd0 g : ℚ) + ((decode4_ks g : ℚ) / 2.0) / 24.0) =
      (decode4_mjd0 g : Int) := by
    have e : (decode4_mjd0 g : ℚ) + ((decode4_ks g : ℚ) / 2.0) / 24.0 =
        ((48 * (decode4_mjd0 g : Int) + decode4_ks g : Int) : ℚ) / ((48 : Nat) : ℚ) := by
      push_cast
      norm_num
      ring
    rw [e, toInt_nonneg_div _ _ (by omega)]
    omega
  have t4 : Int.tmod (toInt ((decode4_hour g : ℚ) + (decode4_ks g : ℚ) / 2.0)) 24 =
      ((decode4_hour g : Int) + decode4_ks g / 2) % 24 := by
    have e : (decode4_hour g : ℚ) + (decode4_ks g : ℚ) / 2.0 =
        ((2 * (decode4_hour g : Int) + decode4_ks g : Int) : ℚ) / ((2 : Nat) : ℚ) := by
      push_cast
      norm_num
      ring
    rw [e, toInt_nonneg_div _ _ (by omega)]
    have e2 : (2 * (decode4_hour g : Int) + decode4_ks g) / ((2 : Nat) : Int) =
        (decode4_hour g : Int) + decode4_ks g / 2 := by
      omega
    rw [e2, Int.tmod_eq_emod (by omega) (by decide)]
  rw [decode4_eq4 s g h4, t1, t2, t3, t4, mjd_date_eq_int _ (by exact_mod_cast hm)]

theorem days_in_month_bounds (y m : Int) : 28 ≤ days_in_month y m ∧ days_in_month y m ≤ 31 := by
  unfold days_in_month
  split_ifs <;> omega

theorem days_before_year_succ (y : Int) :
    days_before_year (y + 1) = days_before_year y + 337 + days_in_month y 2 := by
  unfold days_before_year days_in_month
  rcases leap_cases y with ⟨e, h⟩ | ⟨e, h⟩ <;> simp only [e] <;> simp <;> omega

theorem days_before_year_mono (y z : Int) (h : y ≤ z) :
    days_before_year y ≤ days_before_year z := by
  unfold days_before_year
  omega

theorem sum_range_mono (f : Nat → Int) (hf : ∀ i, 0 ≤ f i) (a b : Nat) (h : a ≤ b) :
    ((List.range a).map f).sum ≤ ((List.range b).map f).sum := by
  induction b, h using Nat.le_induction with
  | base => exact le_refl _
  | succ n _ ih =>
    rw [List.range_succ, List.map_append, List.sum_append]
    have := hf n
    simp only [List.map_cons, List.map_nil, List.sum_cons, List.sum_nil]
    omega

theorem days_before_month_step (y m n : Int) (h1 : 1 ≤ m) (h : m < n) :
    days_before_month y m + days_in_month y m ≤ days_before_month y n := by
  have hf : ∀ i : Nat, 0 ≤ days_in_month y ((i : Int) + 1) := fun i => by
    have := days_in_month_bounds y ((i : Int) + 1)
    omega
  have hm : (m - 1).toNat + 1 ≤ (n - 1).toNat := by omega
  have key := sum_range_mono (fun i : Nat => days_in_month y ((i : Int) + 1)) hf _ _ hm
  rw [List.range_succ, List.map_append, List.sum_append] at key
  simp only [List.map_cons, List.map_nil, List.sum_cons, List.sum_nil] at key
  have e : (((m - 1).toNat : Nat) : Int) + 1 = m := by omega
  rw [e] at key
  unfold days_before_month
  omega

theorem days_before_month_nonneg (y m : Int) : 0 ≤ days_before_month y m := by
  have hf : ∀ i : Nat, 0 ≤ days_in_month y ((i : Int) + 1) := fun i => by
    have := days_in_month_bounds y ((i : Int) + 1)
    omega
  have key := sum_range_mono (fun i : Nat => days_in_month y ((i : Int) + 1)) hf 0 _
    (Nat.zero_le (m - 1).toNat)
  simpa [days_before_month] using key

theorem days_before_month_13 (y : Int) : days_before_month y 13 = 337 + days_in_month y 2 := by
  simp [days_before_month, List.range_succ, days_in_month]
  ring

theorem year_offset_bounds (y m d : Int) (h : valid_date y m d) :
    0 ≤ days_before_month y m + (d - 1) ∧
      days_before_month y m + (d - 1) < 337 + days_in_month y 2 := by
  obtain ⟨h1, h2, h3, h4⟩ := h
  have a := days_before_month_nonneg y m
  have b := days_before_month_step y m 13 h1 (by omega)
  rw [days_before_month_13] at b
  generalize days_before_month y m = p at *
  generalize days_in_month y m = q at *
  generalize days_in_month y 2 = r at *
  omega

theorem mjd_of_gregorian_year (y m d z n e : Int) (h : valid_date y m d)
    (k : valid_date z n e) (heq : mjd_of_gregorian y m d = mjd_of_gregorian z n e) : y = z := by
  have a := year_offset_bounds y m d h
  have b := year_offset_bounds z n e k
  have sy := days_before_year_succ y
  have sz := days_before_year_succ z
  unfold mjd_of_gregorian at heq
  rcases lt_trichotomy y z with hlt | heq2 | hgt
  · have c := days_before_year_mono (y + 1) z (by omega)
    generalize days_before_month y m = p1 at *
    generalize days_before_month z n = p2 at *
    generalize days_in_month y 2 = r1 at *
    generalize days_in_month z 2 = r2 at *
    generalize days_before_year (y + 1) = s1 at *
    generalize days_before_year (z + 1) = s2 at *
    generalize days_before_year y = t1 at *
    generalize days_before_year z = t2 at *
    omega
  · exact heq2
  · have c := days_before_year_mono (z + 1) y (by omega)
    generalize days_before_month y m = p1 at *
    generalize days_before_month z n = p2 at *
    generalize days_in_month y 2 = r1 at *
    generalize days_in_month z 2 = r2 at *
    generalize days_before_year (y + 1) = s1 at *
    generalize days_before_year (z + 1) = s2 at *
    generalize days_before_year y = t1 at *
    generalize days_before_year z = t2 at *
    omega

theorem mjd_of_gregorian_inj (y m d z n e : Int) (h : valid_date y m d)
    (k : valid_date z n e) (heq : mjd_of_gregorian y m d = mjd_of_gregorian z n e) :
    y = z ∧ m = n ∧ d = e := by
  have hy := mjd_of_gregorian_year y m d z n e h k heq
  subst hy
  obtain ⟨h1, h2, h3, h4⟩ := h
  obtain ⟨k1, k2, k3, k4⟩ := k
  unfold mjd_of_gregorian at heq
  have hmn : m = n := by
    rcases lt_trichotomy m n with hlt | heq2 | hgt
    · have c := days_before_month_step y m n h1 hlt
      generalize days_before_month y m = p1 at *
      generalize days_before_month y n = p2 at *
      generalize days_in_month y m = q1 at *
      generalize days_in_month y n = q2 at *
      omega
    · exact heq2
    · have c := days_before_month_step y n m k1 hgt
      generalize days_before_month y m = p1 at *
      generalize days_before_month y n = p2 at *
      generalize days_in_month y m = q1 at *
      generalize days_in_month y n = q2 at *
      omega
  subst hmn
  exact ⟨rfl, rfl, by omega⟩

theorem fmt_d_two (n : Int) (h0 : 0 ≤ n) (h1 : n ≤ 99) :
    ∃ a b : Char, fmt_d false 2 n = [a, b] ∧ a.isDigit = true ∧ b.isDigit = true := by
  interval_cases n <;> exact ⟨_, _, rfl, rfl, rfl⟩

theorem fmt_d_plus (n : Int) (h0 : 0 ≤ n) (h1 : n ≤ 15) :
    ∃ a b : Char, fmt_d true 3 n = ['+', a, b] ∧ a.isDigit = true ∧ b.isDigit = true := by
  interval_cases n <;> exact ⟨_, _, rfl, rfl, rfl⟩

theorem fmt_d_four (n : Int) (h0 : 1900 ≤ n) (h1 : n ≤ 2100) :
    ∃ a b c d : Char, fmt_d false 4 n = [a, b, c, d] ∧ a.isDigit = true ∧ b.isDigit = true ∧
      c.isDigit = true ∧ d.isDigit = true := by
  interval_cases n <;> exact ⟨_, _, _, _, rfl, rfl, rfl, rfl, rfl⟩

theorem clock_snprintf_shape (yr mo dy hr mn lh lm : Int)
    (hy : 1900 ≤ yr ∧ yr ≤ 2100) (hmo : 0 ≤ mo ∧ mo ≤ 99) (hdy : 0 ≤ dy ∧ dy ≤ 99)
    (hhr : 0 ≤ hr ∧ hr ≤ 99) (hmn : 0 ≤ mn ∧ mn ≤ 99) (hlh : 0 ≤ lh ∧ lh ≤ 15)
    (hlm : 0 ≤ lm ∧ lm ≤ 99) :
    ∃ body : List Char, clock_snprintf yr mo dy hr mn lh lm = String.mk (body ++ ['\n']) ∧
      iso_shape body = true := by
  obtain ⟨y1, y2, y3, y4, ey, k1, k2, k3, k4⟩ := fmt_d_four yr hy.1 hy.2
  obtain ⟨m1, m2, em, k5, k6⟩ := fmt_d_two mo hmo.1 hmo.2
  obtain ⟨d1, d2, ed, k7, k8⟩ := fmt_d_two dy hdy.1 hdy.2
  obtain ⟨h1, h2, eh, k9, k10⟩ := fmt_d_two hr hhr.1 hhr.2
  obtain ⟨n1, n2, en, k11, k12⟩ := fmt_d_two mn hmn.1 hmn.2
  obtain ⟨o1, o2, eo, k13, k14⟩ := fmt_d_plus lh hlh.1 hlh.2
  obtain ⟨p1, p2, ep, k15, k16⟩ := fmt_d_two lm hlm.1 hlm.2
  refine ⟨[y1, y2, y3, y4, '-', m1, m2, '-', d1, d2, 'T', h1, h2, ':', n1, n2, '+', o1, o2,
    ':', p1, p2], ?_, ?_⟩
  · unfold clock_snprintf
    rw [ey, em, ed, eh, en, eo, ep]
    rfl
  · simp [iso_shape, k1, k2, k3, k4, k5, k6, k7, k8, k9, k10, k11, k12, k13, k14, k15, k16]

theorem add_type4 (s : Station) (g : Group) (ht : g.type = 4) :
    s.add g = some ((add_header s g).decode4 g) := by
  rw [add_eq, if_neg (by omega), if_neg (by omega), if_neg (by omega), if_pos ht]

theorem decode4_mjd0_eq (g : Group) (hb3 : g.block3 < 65536) :
    decode4_mjd0 g = g.block2 % 4 * 32768 + g.block3 / 2 := by
  unfold decode4_mjd0
  rw [bits_small _ 0 2 (by decide), bits_small _ 1 15 (by decide), Nat.shiftLeft_eq]
  norm_num
  omega

theorem decode4_ks_bounds (g : Group) (hsign : bits g.block4 5 1 = 0) :
    decode4_ks g = (bits g.block4 0 5 : Int) ∧ 0 ≤ decode4_ks g ∧ decode4_ks g ≤ 31 := by
  have h := bits_lt g.block4 0 5
  unfold decode4_ks
  rw [hsign]
  simp only [ne_eq, not_true_eq_false, if_false, one_mul]
  exact ⟨trivial, by omega, by omega⟩

end Station

theorem bits_low (x l : Nat) (hl : l ≤ 16) : bits x 0 l = x % 2 ^ l := by
  rw [bits_small x 0 l hl, pow_zero, Nat.div_one]

/-! ## Theorems -/

open Station

/-- Claim C1: for a 16-bit word `w` and `start + len ≤ 16`, `bits w start len` is
`⌊w / 2^start⌋ mod 2^len`; in particular `bits w 0 16 = w` and `bits w start 0 = 0`. -/
theorem bits_eq_div_mod (w start len : Nat) (hw : w < 65536) (_h : start + len ≤ 16) :
    bits w start len = w / 2 ^ start % 2 ^ len ∧ bits w 0 16 = w ∧ bits w start 0 = 0 := by
  have key : ∀ (x s l : Nat), x < 65536 → bits x s l = x / 2 ^ s % 2 ^ l := by
    intro x s l hx
    unfold bits
    rw [Nat.shiftRight_eq_div_pow, Nat.one_shiftLeft, Nat.and_pow_two_sub_one_eq_mod]
    apply Nat.mod_eq_of_lt
    calc x / 2 ^ s % 2 ^ l ≤ x / 2 ^ s := Nat.mod_le _ _
      _ ≤ x := Nat.div_le_self _ _
      _ < 65536 := hx
  refine ⟨key w start len hw, ?_, ?_⟩
  · rw [key w 0 16 hw]
    simp
    omega
  · rw [key w start 0 hw]
    simp [Nat.mod_one]

/-- Witness for C1 at `w = 0xabcd`, `start = 4`, `len = 8`. -/
theorem bits_eq_div_mod_witness :
    bits 43981 4 8 = 43981 / 2 ^ 4 % 2 ^ 8 ∧ bits 43981 0 16 = 43981 ∧ bits 43981 4 0 = 0 :=
  bits_eq_div_mod 43981 4 8 (by decide) (by decide)

/-- Claim C2, as the code has it: from any station whose fragment mask is within 8
bits, the updates at positions 0, 2, 4, 6, each with two codes in 32..127, are all
defined, and afterwards `hasPS` is true and `getPS` is the concatenation, in position
order, of the eight glyphs `lcd_char c`.  An accepted update that holds a code in
128..255 is undefined: the code reaches `lcd_char` as a negative `char` and the table is
indexed below 0.  So it is for the name bytes 200, 65, .. ("ÚABCDEF "), at the first
update. -/
theorem updatePS_completes_name (s : Station) (c0 c1 c2 c3 c4 c5 c6 c7 : Int)
    (hps : s.ps_.length = 8) (hmask : s.ps_received_bitfield_ < 256)
    (hv : validChars [c0, c1, c2, c3, c4, c5, c6, c7]) :
    ∃ s1 s2 s3 s4 g0 g1 g2 g3 g4 g5 g6 g7,
      lcd_char c0 = some g0 ∧ lcd_char c1 = some g1 ∧ lcd_char c2 = some g2 ∧
      lcd_char c3 = some g3 ∧ lcd_char c4 = some g4 ∧ lcd_char c5 = some g5 ∧
      lcd_char c6 = some g6 ∧ lcd_char c7 = some g7 ∧
      s.updatePS 0 [c0, c1] = some s1 ∧ s1.updatePS 2 [c2, c3] = some s2 ∧
      s2.updatePS 4 [c4, c5] = some s3 ∧ s3.updatePS 6 [c6, c7] = some s4 ∧
      s4.hasPS = true ∧ s4.getPS = g0 ++ g1 ++ g2 ++ g3 ++ g4 ++ g5 ++ g6 ++ g7 ∧
      (∀ (t : Station) (pos : Int) (chars : List Int), 0 ≤ pos →
        pos + (chars.length : Int) ≤ 8 → (∃ c ∈ chars, 128 ≤ c ∧ c ≤ 255) →
        t.updatePS pos chars = none) ∧
      (Station_default decl_zero).updatePS 0 [200, 65] = none := by
  have h0 := hv c0 (by simp)
  have h1 := hv c1 (by simp)
  have h2 := hv c2 (by simp)
  have h3 := hv c3 (by simp)
  have h4 := hv c4 (by simp)
  have h5 := hv c5 (by simp)
  have h6 := hv c6 (by simp)
  have h7 := hv c7 (by simp)
  obtain ⟨g0, e0, -⟩ := lcd_char_isSome c0 h0
  obtain ⟨g1, e1, -⟩ := lcd_char_isSome c1 h1
  obtain ⟨g2, e2, -⟩ := lcd_char_isSome c2 h2
  obtain ⟨g3, e3, -⟩ := lcd_char_isSome c3 h3
  obtain ⟨g4, e4, -⟩ := lcd_char_isSome c4 h4
  obtain ⟨g5, e5, -⟩ := lcd_char_isSome c5 h5
  obtain ⟨g6, e6, -⟩ := lcd_char_isSome c6 h6
  obtain ⟨g7, e7, -⟩ := lcd_char_isSome c7 h7
  have t0 : lcd_char (toChar c0) = some g0 := by rw [toChar_of_valid c0 h0]; exact e0
  have t1 : lcd_char (toChar c1) = some g1 := by rw [toChar_of_valid c1 h1]; exact e1
  have t2 : lcd_char (toChar c2) = some g2 := by rw [toChar_of_valid c2 h2]; exact e2
  have t3 : lcd_char (toChar c3) = some g3 := by rw [toChar_of_valid c3 h3]; exact e3
  have t4 : lcd_char (toChar c4) = some g4 := by rw [toChar_of_valid c4 h4]; exact e4
  have t5 : lcd_char (toChar c5) = some g5 := by rw [toChar_of_valid c5 h5]; exact e5
  have t6 : lcd_char (toChar c6) = some g6 := by rw [toChar_of_valid c6 h6]; exact e6
  have t7 : lcd_char (toChar c7) = some g7 := by rw [toChar_of_valid c7 h7]; exact e7
  have v01 : validChars [c0, c1] := fun c hc => hv c (by simp at hc ⊢; tauto)
  have v23 : validChars [c2, c3] := fun c hc => hv c (by simp at hc ⊢; tauto)
  have v45 : validChars [c4, c5] := fun c hc => hv c (by simp at hc ⊢; tauto)
  have v67 : validChars [c6, c7] := fun c hc => hv c (by simp at hc ⊢; tauto)
  obtain ⟨s1, r1, m1, p1, q1, -⟩ :=
    updatePS_accept_fields s 0 [c0, c1] (by decide) (by simp) v01 hps
  obtain ⟨s2, r2, m2, p2, q2, -⟩ :=
    updatePS_accept_fields s1 2 [c2, c3] (by decide) (by simp) v23
      (by rw [p1, storeGlyphs_length, hps])
  obtain ⟨s3, r3, m3, p3, q3, -⟩ :=
    updatePS_accept_fields s2 4 [c4, c5] (by decide) (by simp) v45
      (by rw [p2, p1, storeGlyphs_length, storeGlyphs_length, hps])
  obtain ⟨s4, r4, m4, p4, -, f4⟩ :=
    updatePS_accept_fields s3 6 [c6, c7] (by decide) (by simp) v67
      (by rw [p3, p2, p1, storeGlyphs_length, storeGlyphs_length, storeGlyphs_length, hps])
  have n2 : ¬ resets s1 2 := by simp [resets, q1]
  have n3 : ¬ resets s2 4 := by simp [resets, q2]
  have n4 : ¬ resets s3 6 := by simp [resets, q3]
  rw [if_neg n2] at m2
  rw [if_neg n3] at m3
  rw [if_neg n4] at m4
  have hbase : (if resets s 0 then 0 else s.ps_received_bitfield_) < 256 := by
    split
    · decide
    · exact hmask
  have hM : s4.ps_received_bitfield_ = 255 := by
    rw [m4, m3, m2, m1]
    exact orBits_name_complete _ hbase
  rw [if_neg n4, m4.symm, if_pos hM] at f4
  obtain ⟨a0, a1, a2, a3, a4, a5, a6, a7, hl⟩ :
      ∃ a0 a1 a2 a3 a4 a5 a6 a7, s.ps_ = [a0, a1, a2, a3, a4, a5, a6, a7] := by
    match hq : s.ps_, hps with
    | [a0, a1, a2, a3, a4, a5, a6, a7], _ => exact ⟨a0, a1, a2, a3, a4, a5, a6, a7, rfl⟩
  refine ⟨s1, s2, s3, s4, g0, g1, g2, g3, g4, g5, g6, g7, e0, e1, e2, e3, e4, e5, e6, e7,
    r1, r2, r3, r4, f4, ?_, fun t pos chars k0 k8 k => updatePS_high t pos chars k0 k8 k,
    rfl⟩
  unfold getPS
  rw [if_pos f4, p4, p3, p2, p1, hl]
  simp [storeGlyphs, t0, t1, t2, t3, t4, t5, t6, t7]

/-- Witness for C2: the default station and the codes of "RADIO 1 ". -/
theorem updatePS_completes_name_witness :
    ∃ s1 s2 s3 s4 g0 g1 g2 g3 g4 g5 g6 g7,
      lcd_char 82 = some g0 ∧ lcd_char 65 = some g1 ∧ lcd_char 68 = some g2 ∧
      lcd_char 73 = some g3 ∧ lcd_char 79 = some g4 ∧ lcd_char 32 = some g5 ∧
      lcd_char 49 = some g6 ∧ lcd_char 32 = some g7 ∧
      (Station_default decl_zero).updatePS 0 [82, 65] = some s1 ∧
      s1.updatePS 2 [68, 73] = some s2 ∧
      s2.updatePS 4 [79, 32] = some s3 ∧ s3.updatePS 6 [49, 32] = some s4 ∧
      s4.hasPS = true ∧ s4.getPS = g0 ++ g1 ++ g2 ++ g3 ++ g4 ++ g5 ++ g6 ++ g7 ∧
      (∀ (t : Station) (pos : Int) (chars : List Int), 0 ≤ pos →
        pos + (chars.length : Int) ≤ 8 → (∃ c ∈ chars, 128 ≤ c ∧ c ≤ 255) →
        t.updatePS pos chars = none) ∧
      (Station_default decl_zero).updatePS 0 [200, 65] = none :=
  updatePS_completes_name (Station_default decl_zero)
    82 65 68 73 79 32 49 32 (by rfl) (by decide) (by decide)

/-- Claim C3, counterexample: from the default station, after the fragment "AB" at
position 0, the fragment "CD" at position 2 gives the mask `0x0f`, and delivering the
same fragment again clears the mask to `0x0c`: the second state differs from the
first. -/
theorem updatePS_twice_counterexample :
    ∃ s0 s1 s2, (Station_default decl_zero).updatePS 0 [65, 66] = some s0 ∧
      s0.updatePS 2 [67, 68] = some s1 ∧ s1.updatePS 2 [67, 68] = some s2 ∧
      s1.ps_received_bitfield_ = 15 ∧ s2.ps_received_bitfield_ = 12 ∧ s2 ≠ s1 := by
  refine ⟨_, _, _, rfl, rfl, rfl, rfl, rfl, ?_⟩
  intro h
  have h2 := congrArg Station.ps_received_bitfield_ h
  revert h2
  decide

/-- Claim C3, amended: with codes in 32..127, `updatePS pos chars` applied twice in a
row is defined both times; a rejected call leaves the state as the first application
left it; after an accepted call the second application keeps the glyph buffer, the
previous position and every other member, but replaces the mask by exactly the bits
`pos .. pos+len-1` and the ready flag by whether that mask is `0xff`; so the two states
are equal whenever `pos ≠ prev_pos + 2`, the case in which the first application has
itself cleared the mask. -/
theorem updatePS_twice (s : Station) (pos : Int) (chars : List Int)
    (hps : s.ps_.length = 8) (hv : validChars chars) :
    ∃ s1 s2, s.updatePS pos chars = some s1 ∧ s1.updatePS pos chars = some s2 ∧
      (pos < 0 ∨ pos + (chars.length : Int) > 8 → s2 = s1) ∧
      (0 ≤ pos → pos + (chars.length : Int) ≤ 8 →
        s2 = { s1 with
          ps_received_bitfield_ := orBits 0 pos.toNat chars.length,
          has_ps_ := decide (orBits 0 pos.toNat chars.length = 255) } ∧
        ∀ j, s2.ps_received_bitfield_.testBit j =
          decide (pos.toNat ≤ j ∧ j < pos.toNat + chars.length)) ∧
      (pos ≠ s.prev_ps_pos_ + 2 → s2 = s1) := by
  by_cases hrej : pos < 0 ∨ pos + (chars.length : Int) > 8
  · refine ⟨s, s, updatePS_reject s pos chars hrej, updatePS_reject s pos chars hrej,
      fun _ => rfl, ?_, fun _ => rfl⟩
    intro h0 h8
    omega
  · have h0 : 0 ≤ pos := by omega
    have h8 : pos + (chars.length : Int) ≤ 8 := by omega
    have e1 := updatePS_accept s pos chars h0 h8 hv hps
    refine ⟨_, _, e1,
      updatePS_accept _ pos chars h0 h8 hv (by simp only [storeGlyphs_length, hps]),
      fun h => absurd h hrej, ?_, ?_⟩
    · intro _ _
      constructor
      · by_cases hm : orBits 0 pos.toNat chars.length = 255 <;>
          simp [resets, storeGlyphs_idem, hm]
      · intro j
        simp [resets, orBits_testBit]
    · intro hne
      simp [resets, storeGlyphs_idem, hne]

/-- Witness for C3 (amended): the default station and the fragment "CD" at position 4. -/
theorem updatePS_twice_witness :
    ∃ s1 s2, (Station_default decl_zero).updatePS 4 [67, 68] = some s1 ∧
      s1.updatePS 4 [67, 68] = some s2 ∧
      ((4 : Int) < 0 ∨ (4 : Int) + (([67, 68] : List Int).length : Int) > 8 → s2 = s1) ∧
      ((0 : Int) ≤ 4 → (4 : Int) + (([67, 68] : List Int).length : Int) ≤ 8 →
        s2 = { s1 with
          ps_received_bitfield_ := orBits 0 (4 : Int).toNat ([67, 68] : List Int).length,
          has_ps_ := decide (orBits 0 (4 : Int).toNat ([67, 68] : List Int).length = 255) } ∧
        ∀ j, s2.ps_received_bitfield_.testBit j =
          decide ((4 : Int).toNat ≤ j ∧ j < (4 : Int).toNat + ([67, 68] : List Int).length)) ∧
      ((4 : Int) ≠ (Station_default decl_zero).prev_ps_pos_ + 2 → s2 = s1) :=
  updatePS_twice (Station_default decl_zero) 4 [67, 68] (by rfl) (by decide)

/-- Claim C4: from a freshly constructed station whose declared mask is empty and whose
name is declared not ready, the updates at positions 0, 2, 4 and then 7, each with one
or two codes in 32..127, are all defined, the mask is `0xff` after none of them, and at
the end `hasPS` is false and `getPS` is the empty string. -/
theorem updatePS_broken_stride (decl : Station) (_pi : Nat) (f0 f1 f2 f3 : List Int)
    (hm : decl.ps_received_bitfield_ = 0) (hr : decl.has_ps_ = false)
    (l0 : f0.length = 1 ∨ f0.length = 2) (l1 : f1.length = 1 ∨ f1.length = 2)
    (l2 : f2.length = 1 ∨ f2.length = 2) (l3 : f3.length = 1 ∨ f3.length = 2)
    (v0 : validChars f0) (v1 : validChars f1) (v2 : validChars f2) (v3 : validChars f3) :
    ∃ s1 s2 s3 s4, (Station_pi decl _pi).updatePS 0 f0 = some s1 ∧
      s1.updatePS 2 f1 = some s2 ∧ s2.updatePS 4 f2 = some s3 ∧
      s3.updatePS 7 f3 = some s4 ∧
      s1.ps_received_bitfield_ ≠ 255 ∧ s2.ps_received_bitfield_ ≠ 255 ∧
      s3.ps_received_bitfield_ ≠ 255 ∧ s4.ps_received_bitfield_ ≠ 255 ∧
      s4.hasPS = false ∧ s4.getPS = "" := by
  have hps : (Station_pi decl _pi).ps_.length = 8 := rfl
  have hm0 : (Station_pi decl _pi).ps_received_bitfield_ = 0 := hm
  have hr0 : (Station_pi decl _pi).has_ps_ = false := hr
  obtain ⟨s1, r1, m1, p1, q1, k1⟩ :=
    updatePS_accept_fields (Station_pi decl _pi) 0 f0 (by decide) (by omega) v0 hps
  have hps1 : s1.ps_.length = 8 := by rw [p1, storeGlyphs_length, hps]
  obtain ⟨s2, r2, m2, p2, q2, k2⟩ :=
    updatePS_accept_fields s1 2 f1 (by decide) (by omega) v1 hps1
  have hps2 : s2.ps_.length = 8 := by rw [p2, storeGlyphs_length, hps1]
  obtain ⟨s3, r3, m3, p3, q3, k3⟩ :=
    updatePS_accept_fields s2 4 f2 (by decide) (by omega) v2 hps2
  have hps3 : s3.ps_.length = 8 := by rw [p3, storeGlyphs_length, hps2]
  have b1 : s1.ps_received_bitfield_ < 2 ^ 6 := by
    rw [m1, hm0, ite_self]
    exact orBits_lt _ _ _ _ (by decide) (by simp; omega)
  have b2 : s2.ps_received_bitfield_ < 2 ^ 6 := by
    rw [m2]
    apply orBits_lt _ _ _ _ _ (by simp; omega)
    split
    · decide
    · exact b1
  have b3 : s3.ps_received_bitfield_ < 2 ^ 6 := by
    rw [m3]
    apply orBits_lt _ _ _ _ _ (by simp; omega)
    split
    · decide
    · exact b2
  have n1 : s1.ps_received_bitfield_ ≠ 255 := by omega
  have n2 : s2.ps_received_bitfield_ ≠ 255 := by omega
  have n3 : s3.ps_received_bitfield_ ≠ 255 := by omega
  have g1 : s1.has_ps_ = false := by
    rw [k1, ← m1, if_neg n1, hr0, ite_self]
  have g2 : s2.has_ps_ = false := by
    rw [k2, ← m2, if_neg n2, g1, ite_self]
  have g3 : s3.has_ps_ = false := by
    rw [k3, ← m3, if_neg n3, g2, ite_self]
  rcases l3 with l3 | l3
  · obtain ⟨s4, r4, m4, p4, q4, k4⟩ :=
      updatePS_accept_fields s3 7 f3 (by decide) (by omega) v3 hps3
    have hrs : resets s3 7 := by
      unfold resets
      omega
    have e4 : s4.ps_received_bitfield_ = 128 := by
      rw [m4, if_pos hrs, l3]
      rfl
    have n4 : s4.ps_received_bitfield_ ≠ 255 := by omega
    have g4 : s4.has_ps_ = false := by
      rw [k4, ← m4, if_neg n4, if_pos hrs]
    refine ⟨s1, s2, s3, s4, r1, r2, r3, r4, n1, n2, n3, n4, g4, ?_⟩
    unfold getPS
    rw [g4]
    rfl
  · refine ⟨s1, s2, s3, s3, r1, r2, r3, updatePS_reject s3 7 f3 (by omega), n1, n2, n3, n3,
      g3, ?_⟩
    unfold getPS
    rw [g3]
    rfl

/-- Witness for C4: the default station, fragments "AB", "C", "DE" and then "X" at 7. -/
theorem updatePS_broken_stride_witness :
    ∃ s1 s2 s3 s4, (Station_pi decl_zero 0).updatePS 0 [65, 66] = some s1 ∧
      s1.updatePS 2 [67] = some s2 ∧ s2.updatePS 4 [68, 69] = some s3 ∧
      s3.updatePS 7 [88] = some s4 ∧
      s1.ps_received_bitfield_ ≠ 255 ∧ s2.ps_received_bitfield_ ≠ 255 ∧
      s3.ps_received_bitfield_ ≠ 255 ∧ s4.ps_received_bitfield_ ≠ 255 ∧
      s4.hasPS = false ∧ s4.getPS = "" :=
  updatePS_broken_stride decl_zero 0 [65, 66] [67] [68, 69] [88] rfl rfl
    (by decide) (by decide) (by decide) (by decide)
    (by decide) (by decide) (by decide) (by decide)

/-- Claim C5: "the ready flag is true if and only if the fragment mask is `0xff`" is an
invariant.  If it holds of a station whose mask is within 8 bits, it holds, and the
mask is still within 8 bits, after every call of `updatePS` and of `add` that returns;
and these calls do return when the glyph buffer has its 8 entries and the character
codes handed to the name reassembly are in 32..127. -/
theorem ready_iff_mask_invariant (s : Station)
    (hinv : s.has_ps_ = true ↔ s.ps_received_bitfield_ = 255)
    (hm : s.ps_received_bitfield_ < 256) :
    (∀ (pos : Int) (chars : List Int) (t : Station), s.updatePS pos chars = some t →
      (t.has_ps_ = true ↔ t.ps_received_bitfield_ = 255) ∧ t.ps_received_bitfield_ < 256) ∧
    (∀ (g : Group) (t : Station), s.add g = some t →
      (t.has_ps_ = true ↔ t.ps_received_bitfield_ = 255) ∧ t.ps_received_bitfield_ < 256) ∧
    (∀ (pos : Int) (chars : List Int), s.ps_.length = 8 → validChars chars →
      ∃ t, s.updatePS pos chars = some t) ∧
    (∀ (g : Group), s.ps_.length = 8 →
      (g.type = 0 → 4 ≤ g.num_blocks →
        validChars [(bits g.block4 8 8 : Int), (bits g.block4 0 8 : Int)]) →
      ∃ t, s.add g = some t) := by
  refine ⟨fun pos chars t h => updatePS_ready_iff s t pos chars hinv hm h, ?_,
    fun pos chars hps hv => updatePS_defined s pos chars hps hv,
    fun g hps hv => add_defined s g hps hv⟩
  intro g t h
  rcases add_name_cases s t g h with ⟨h1, h2⟩ | ⟨u, pos, chars, h1, h2, h3⟩
  · rw [h1, h2]
    exact ⟨hinv, hm⟩
  · exact updatePS_ready_iff u t pos chars (by rw [h1, h2]; exact hinv) (by rw [h2]; exact hm) h3

/-- Witness for C5: the default station, whose name is not ready and whose mask is
empty, and the fragment "AB" at position 0. -/
theorem ready_iff_mask_invariant_witness :
    ∃ t, (Station_default decl_zero).updatePS 0 [65, 66] = some t ∧
      (t.has_ps_ = true ↔ t.ps_received_bitfield_ = 255) ∧ t.ps_received_bitfield_ < 256 :=
  ⟨_, rfl,
    (ready_iff_mask_invariant (Station_default decl_zero) (by decide) (by decide)).1
      0 [65, 66] _ rfl⟩

/-- Claim C6: a call of `updatePS` with `pos < 0` or `pos + len(chars) > 8` returns the
station unchanged.  An accepted call that returns keeps the length of the glyph buffer
and every entry outside `pos .. pos+len-1`, a range within 0..7, so no index outside
0..7 is written; and an accepted call with codes in 32..127 on a station whose glyph
buffer has its 8 entries does return. -/
theorem updatePS_out_of_range (s : Station) (pos : Int) (chars : List Int) :
    (pos < 0 ∨ pos + (chars.length : Int) > 8 → s.updatePS pos chars = some s) ∧
    (0 ≤ pos → pos + (chars.length : Int) ≤ 8 →
      pos.toNat + chars.length ≤ 8 ∧
      (∀ t, s.updatePS pos chars = some t →
        t.ps_.length = s.ps_.length ∧
        (∀ j, j < pos.toNat ∨ pos.toNat + chars.length ≤ j → t.ps_.get? j = s.ps_.get? j) ∧
        (∀ j, 8 ≤ j → t.ps_.get? j = s.ps_.get? j)) ∧
      (s.ps_.length = 8 → validChars chars → ∃ t, s.updatePS pos chars = some t)) := by
  refine ⟨fun h => updatePS_reject s pos chars h, fun h0 h8 => ⟨by omega, ?_, ?_⟩⟩
  · intro t ht
    rw [updatePS_some s t pos chars ht h0 h8]
    refine ⟨storeGlyphs_length _ _ _, fun j hj => storeGlyphs_get_other _ _ _ _ hj,
      fun j hj => storeGlyphs_get_other _ _ _ _ (by omega)⟩
  · intro hps hv
    exact updatePS_defined s pos chars hps hv

/-- Witness for C6: the fragment "AB" at position 7 is rejected by the default
station. -/
theorem updatePS_out_of_range_witness :
    (Station_default decl_zero).updatePS 7 [65, 66] = some (Station_default decl_zero) :=
  (updatePS_out_of_range (Station_default decl_zero) 7 [65, 66]).1 (by decide)

/-- Claim C7: `addAltFreq c`, with frequencies as exact rationals.  For `1 ≤ c ≤ 204` it
appends the one entry `87.5 + c/10` at the end of the list and changes nothing else;
for `225 ≤ c ≤ 249` it sets the expected-count hint to `c - 224` and changes nothing
else; for every other code (0, 205..224, 250 and above) the station is unchanged.
Code 1 gives 87.6, code 204 gives 107.9, code 230 gives the hint 6. -/
theorem addAltFreq_cases (s : Station) (c : Nat) :
    (1 ≤ c ∧ c ≤ 204 →
      s.addAltFreq c = { s with alt_freqs_ := s.alt_freqs_ ++ [87.5 + (c : ℚ) / 10] }) ∧
    (225 ≤ c ∧ c ≤ 249 →
      s.addAltFreq c = { s with num_alt_freqs_ := (c : Int) - 224 }) ∧
    (c = 0 ∨ (205 ≤ c ∧ c ≤ 224) ∨ 250 ≤ c → s.addAltFreq c = s) ∧
    s.addAltFreq 1 = { s with alt_freqs_ := s.alt_freqs_ ++ [87.6] } ∧
    s.addAltFreq 204 = { s with alt_freqs_ := s.alt_freqs_ ++ [107.9] } ∧
    s.addAltFreq 230 = { s with num_alt_freqs_ := 6 } := by
  refine ⟨?_, ?_, ?_, ?_, ?_, ?_⟩
  · intro h
    unfold addAltFreq
    rw [if_pos h]
    norm_num
  · intro h
    unfold addAltFreq
    rw [if_neg (by omega), if_neg (by omega), if_neg (by omega), if_pos h]
  · intro h
    unfold addAltFreq
    split_ifs <;> first | rfl | omega
  · unfold addAltFreq
    rw [if_pos (by decide)]
    norm_num
  · unfold addAltFreq
    rw [if_pos (by decide)]
    norm_num
  · unfold addAltFreq
    rw [if_neg (by decide), if_neg (by decide), if_neg (by decide), if_pos (by decide)]
    norm_num

/-- Witness for C7: the codes 100, 240 and 224 on the default station. -/
theorem addAltFreq_cases_witness :
    (Station_default decl_zero).addAltFreq 100 =
      { Station_default decl_zero with
        alt_freqs_ := (Station_default decl_zero).alt_freqs_ ++ [87.5 + ((100 : Nat) : ℚ) / 10] } ∧
    (Station_default decl_zero).addAltFreq 240 =
      { Station_default decl_zero with num_alt_freqs_ := ((240 : Nat) : Int) - 224 } ∧
    (Station_default decl_zero).addAltFreq 224 = Station_default decl_zero :=
  ⟨(addAltFreq_cases (Station_default decl_zero) 100).1 (by decide),
   (addAltFreq_cases (Station_default decl_zero) 240).2.1 (by decide),
   (addAltFreq_cases (Station_default decl_zero) 224).2.2.1 (by decide)⟩

/-- Claim C8: `add` on a type-0 group.  With `s1` the station after the header and the
flags are stored (`is_ta_` bit 4 and `is_music_` bit 3 of block 2) and `s2` the station
after, for variant A, `addAltFreq` on the high and then on the low byte of block 3:
with fewer than 3 blocks the result is `s1`; with 3 blocks it is `s2`; with 4 blocks (or
more) it is `updatePS` on `s2` at position `2 * (block2 mod 4)` with the high and the
low byte of block 4.  With fewer than 4 blocks the name buffer, the mask, the ready flag
and the previous position are unchanged, and for variant B so are the
alternate-frequency list and the hint. -/
theorem add_type0 (s : Station) (g : Group) (h0 : g.type = 0) :
    ∃ s1 s2 : Station,
      s1 = { s with is_tp_ := g.block2.testBit 10, pty_ := g.block2 / 32 % 32,
                    is_ta_ := g.block2.testBit 4, is_music_ := g.block2.testBit 3 } ∧
      s2 = (if g.type_ab = TypeAB.TYPE_A then
              (s1.addAltFreq (g.block3 / 256 % 256)).addAltFreq (g.block3 % 256)
            else s1) ∧
      (g.num_blocks < 3 → s.add g = some s1) ∧
      (g.num_blocks = 3 → s.add g = some s2) ∧
      (4 ≤ g.num_blocks →
        s.add g = s2.updatePS (2 * ((g.block2 % 4 : Nat) : Int))
          [((g.block4 / 256 % 256 : Nat) : Int), ((g.block4 % 256 : Nat) : Int)]) ∧
      (g.num_blocks < 4 → ∃ t, s.add g = some t ∧ t.ps_ = s.ps_ ∧
        t.ps_received_bitfield_ = s.ps_received_bitfield_ ∧ t.has_ps_ = s.has_ps_ ∧
        t.prev_ps_pos_ = s.prev_ps_pos_) ∧
      (g.type_ab = TypeAB.TYPE_B →
        s2.alt_freqs_ = s.alt_freqs_ ∧ s2.num_alt_freqs_ = s.num_alt_freqs_) := by
  have e1 : decode0_flags (add_header s g) g =
      { s with is_tp_ := g.block2.testBit 10, pty_ := g.block2 / 32 % 32,
               is_ta_ := g.block2.testBit 4, is_music_ := g.block2.testBit 3 } := by
    unfold decode0_flags add_header
    simp only [bits_testBit, bits_small _ _ _ (show 5 ≤ 16 by decide)]
    norm_num
  have e2 : ∀ u : Station, decode0_altFreqs u g =
      (if g.type_ab = TypeAB.TYPE_A then
        (u.addAltFreq (g.block3 / 256 % 256)).addAltFreq (g.block3 % 256)
      else u) := by
    intro u
    unfold decode0_altFreqs
    simp only [bits_small _ _ _ (show 8 ≤ 16 by decide)]
    norm_num
  have e3 : ((bits g.block2 0 2 : Nat) : Int) * 2 = 2 * ((g.block2 % 4 : Nat) : Int) := by
    rw [bits_small _ _ _ (by decide)]
    norm_num
    ring
  have e4 : (bits g.block4 8 8) = g.block4 / 256 % 256 := by
    rw [bits_small _ _ _ (by decide)]
    norm_num
  have e5 : (bits g.block4 0 8) = g.block4 % 256 := by
    rw [bits_small _ _ _ (by decide)]
    norm_num
  have hadd := add_eq s g
  rw [if_pos h0, decode0_eq, e1, e2, e3, e4, e5] at hadd
  have hna := decode0_altFreqs_nonAltFreq
    { s with is_tp_ := g.block2.testBit 10, pty_ := g.block2 / 32 % 32,
             is_ta_ := g.block2.testBit 4, is_music_ := g.block2.testBit 3 } g
  rw [e2] at hna
  simp only [nonAltFreq, Prod.mk.injEq] at hna
  refine ⟨_, _, rfl, rfl, ?_, ?_, ?_, ?_, ?_⟩
  · intro h
    rw [hadd, if_pos h]
  · intro h
    rw [hadd, if_neg (by omega), if_pos (by omega)]
  · intro h
    rw [hadd, if_neg (by omega), if_neg (by omega)]
  · intro h
    by_cases h3 : g.num_blocks < 3
    · rw [if_pos h3] at hadd
      exact ⟨_, hadd, rfl, rfl, rfl, rfl⟩
    · rw [if_neg h3, if_pos h] at hadd
      exact ⟨_, hadd, hna.2.1, hna.2.2.2.2.2.2.2.1, hna.2.2.2.2.2.2.1, hna.2.2.2.2.2.2.2.2.1⟩
  · intro hB
    rw [if_neg (by rw [hB]; decide)]
    exact ⟨rfl, rfl⟩

/-- Witness for C8: a 4-block group 0A with the flags set, the alternate-frequency codes
230 and 100, and the fragment "AB" at position 2. -/
theorem add_type0_witness :
    ∃ s1 s2 : Station,
      s1 = { Station_default decl_zero with
               is_tp_ := (1049 : Nat).testBit 10, pty_ := 1049 / 32 % 32,
               is_ta_ := (1049 : Nat).testBit 4, is_music_ := (1049 : Nat).testBit 3 } ∧
      s2 = (s1.addAltFreq (58980 / 256 % 256)).addAltFreq (58980 % 256) ∧
      (Station_default decl_zero).add
          { block1 := 0, block2 := 1049, block3 := 58980, block4 := 16706, type := 0,
            type_ab := TypeAB.TYPE_A, num_blocks := 4 } =
        s2.updatePS (2 * ((1049 % 4 : Nat) : Int))
          [((16706 / 256 % 256 : Nat) : Int), ((16706 % 256 : Nat) : Int)] := by
  obtain ⟨s1, s2, h1, h2, -, -, h4, -, -⟩ :=
    add_type0 (Station_default decl_zero)
      { block1 := 0, block2 := 1049, block3 := 58980, block4 := 16706, type := 0,
        type_ab := TypeAB.TYPE_A, num_blocks := 4 } rfl
  exact ⟨s1, s2, h1, h2, h4 (by decide)⟩

/-- Claim C9: after every call of `add` that returns, for any group, `is_tp_` is bit 10
of block 2, `pty_` is the 5-bit field at bits 5..9 of block 2 (so below 32), and `getPI`
returns what it returned before the call; `add` does return when the glyph buffer has
its 8 entries and, for a type-0 group of 4 blocks, the two bytes of block 4 are codes
in 32..127.  `getPI` of a constructed station is the identifier given to the
constructor, and 0 for the default constructor, and stays so after `add`. -/
theorem add_header_fields (s : Station) (g : Group) :
    (∀ t, s.add g = some t →
      t.is_tp_ = g.block2.testBit 10 ∧ t.pty_ = g.block2 / 2 ^ 5 % 2 ^ 5 ∧ t.pty_ < 32 ∧
      t.getPI = s.getPI) ∧
    (s.ps_.length = 8 →
      (g.type = 0 → 4 ≤ g.num_blocks →
        validChars [(bits g.block4 8 8 : Int), (bits g.block4 0 8 : Int)]) →
      ∃ t, s.add g = some t) ∧
    (∀ (decl : Station) (_pi : Nat), (Station_pi decl _pi).getPI = _pi ∧
      ∀ t, (Station_pi decl _pi).add g = some t → t.getPI = _pi) ∧
    (∀ (decl : Station), (Station_default decl).getPI = 0 ∧
      ∀ t, (Station_default decl).add g = some t → t.getPI = 0) := by
  refine ⟨?_, fun hps hv => add_defined s g hps hv, ?_, ?_⟩
  · intro t h
    obtain ⟨h1, h2, h3⟩ := add_keeps_header s t g h
    rw [bits_testBit] at h2
    refine ⟨h2, ?_, ?_, h1⟩
    · rw [h3, bits_small _ _ _ (by decide)]
    · rw [h3]
      exact bits_lt _ _ 5
  · intro decl _pi
    exact ⟨rfl, fun t h => (add_keeps_header _ t g h).1⟩
  · intro decl
    exact ⟨rfl, fun t h => (add_keeps_header _ t g h).1⟩

/-- Witness for C9: a 4-block group 1A on the station constructed with the identifier
`0x6201`. -/
theorem add_header_fields_witness :
    ∃ t, (Station_pi decl_zero 25089).add
        { block1 := 25089, block2 := 5472, block3 := 4660, block4 := 22136, type := 1,
          type_ab := TypeAB.TYPE_A, num_blocks := 4 } = some t ∧
      t.is_tp_ = (5472 : Nat).testBit 10 ∧ t.pty_ = 5472 / 2 ^ 5 % 2 ^ 5 ∧ t.pty_ < 32 ∧
      t.getPI = (Station_pi decl_zero 25089).getPI := by
  obtain ⟨t, ht⟩ :=
    (add_header_fields (Station_pi decl_zero 25089)
      { block1 := 25089, block2 := 5472, block3 := 4660, block4 := 22136, type := 1,
        type_ab := TypeAB.TYPE_A, num_blocks := 4 }).2.1 rfl (fun h => absurd h (by decide))
  exact ⟨t, ht,
    (add_header_fields (Station_pi decl_zero 25089)
      { block1 := 25089, block2 := 5472, block3 := 4660, block4 := 22136, type := 1,
        type_ab := TypeAB.TYPE_A, num_blocks := 4 }).1 t ht⟩

/-- Claim C10, counterexample: a 4-block group 1B with block 4 equal to `0x1234`
changes `pin_` of the default station from unset to `0x1234`. -/
theorem add_type1B_counterexample :
    ∃ t, (Station_default decl_zero).add
        { block1 := 0, block2 := 0, block3 := 0, block4 := 4660, type := 1,
          type_ab := TypeAB.TYPE_B, num_blocks := 4 } = some t ∧
      (Station_default decl_zero).pin_ = none ∧ t.pin_ = some 4660 :=
  ⟨_, rfl, rfl, rfl⟩

/-- Claim C10, amended: on a type-1 group of variant B, `add` stores the two header
members and, when the group has 4 blocks (or more), `pin_ = block4`; it changes no other
member, so every paging and linkage member other than `pin_` keeps its value, and with
fewer than 4 blocks `pin_` keeps its value too. -/
theorem add_type1B (s : Station) (g : Group) (h1 : g.type = 1)
    (hB : g.type_ab = TypeAB.TYPE_B) :
    s.add g =
      some (if g.num_blocks < 4 then
              { s with is_tp_ := g.block2.testBit 10, pty_ := g.block2 / 2 ^ 5 % 2 ^ 5 }
            else
              { s with is_tp_ := g.block2.testBit 10, pty_ := g.block2 / 2 ^ 5 % 2 ^ 5,
                       pin_ := some g.block4 }) := by
  have hA : ¬ g.type_ab = TypeAB.TYPE_A := by rw [hB]; decide
  rw [add_eq, if_neg (by omega), if_pos h1]
  unfold decode1 add_header
  rw [bits_testBit, bits_small _ _ _ (show 5 ≤ 16 by decide)]
  by_cases h4 : g.num_blocks < 4
  · rw [if_pos h4, if_pos h4]
  · rw [if_neg h4, if_neg h4]
    simp only [if_neg hA]

/-- Witness for C10 (amended): the 4-block group 1B of the counterexample. -/
theorem add_type1B_witness :
    (Station_default decl_zero).add
        { block1 := 0, block2 := 0, block3 := 0, block4 := 4660, type := 1,
          type_ab := TypeAB.TYPE_B, num_blocks := 4 } =
      some (if (4 : Nat) < 4 then
              { Station_default decl_zero with
                  is_tp_ := (0 : Nat).testBit 10, pty_ := 0 / 2 ^ 5 % 2 ^ 5 }
            else
              { Station_default decl_zero with
                  is_tp_ := (0 : Nat).testBit 10, pty_ := 0 / 2 ^ 5 % 2 ^ 5,
                  pin_ := some 4660 }) :=
  add_type1B (Station_default decl_zero)
    { block1 := 0, block2 := 0, block3 := 0, block4 := 4660, type := 1,
      type_ab := TypeAB.TYPE_B, num_blocks := 4 } rfl rfl

/-- Claim C11, counterexample: two 4-block groups 1A that differ only in the
`slc_variant` bits, 1 and 3.  On the default station both change `pin_` (unset to
`0x1234`) and the pager member `pager_tng_` (unset to 5): the members written with the
two values are not disjoint, and with `slc_variant` 1 a pager member is changed. -/
theorem add_type1A_isolation_counterexample :
    ∃ t1 t3,
      (Station_default decl_zero).add
          { block1 := 0, block2 := 20, block3 := 4096, block4 := 4660, type := 1,
            type_ab := TypeAB.TYPE_A, num_blocks := 4 } = some t1 ∧
      (Station_default decl_zero).add
          { block1 := 0, block2 := 20, block3 := 12288, block4 := 4660, type := 1,
            type_ab := TypeAB.TYPE_A, num_blocks := 4 } = some t3 ∧
      (Station_default decl_zero).pager_tng_ = none ∧
      t1.pager_tng_ = some 5 ∧ t3.pager_tng_ = some 5 ∧
      (Station_default decl_zero).pin_ = none ∧
      t1.pin_ = some 4660 ∧ t3.pin_ = some 4660 :=
  ⟨_, _, rfl, rfl, rfl, rfl, rfl, rfl, rfl, rfl⟩

/-- Claim C11, amended: on a 4-block group 1A, `add` stores the header, `pin_`,
`pager_tng_`, `linkage_la_` and, for a non-zero `pager_tng_`, `pager_interval_`, whatever
the `slc_variant`; call that state `common`.  Beyond `common` it writes `tmc_id_` only
for `slc_variant` 1, `lang_` only for 3, `ews_channel_` only for 7; for 0 it writes
`ecc_` and `cc_` and changes nothing else outside the four members `pager_opc_`,
`pager_pac_`, `pager_ecc_`, `pager_ccf_`; for 2 it changes nothing outside these four.
So with `slc_variant` 1 none of these four is changed and with 3 `tmc_id_` is not
changed. -/
theorem add_type1A_isolation (s : Station) (g : Group) (h1 : g.type = 1)
    (hA : g.type_ab = TypeAB.TYPE_A) (h4 : g.num_blocks = 4) :
    ∃ common t : Station,
      common =
        { s with is_tp_ := g.block2.testBit 10, pty_ := g.block2 / 2 ^ 5 % 2 ^ 5,
                 pin_ := some g.block4,
                 pager_tng_ := some (g.block2 / 2 ^ 2 % 2 ^ 3),
                 pager_interval_ :=
                   if g.block2 / 2 ^ 2 % 2 ^ 3 ≠ 0 then some (g.block2 % 2 ^ 2)
                   else s.pager_interval_,
                 linkage_la_ := some (g.block3 / 2 ^ 15 % 2) } ∧
      s.add g = some t ∧
      (g.block3 / 2 ^ 12 % 2 ^ 3 = 1 →
        t = { common with tmc_id_ := some (g.block3 % 2 ^ 12) }) ∧
      (g.block3 / 2 ^ 12 % 2 ^ 3 = 3 →
        t = { common with lang_ := some (g.block3 % 2 ^ 8) }) ∧
      (g.block3 / 2 ^ 12 % 2 ^ 3 = 7 →
        t = { common with ews_channel_ := some (g.block3 % 2 ^ 12) }) ∧
      (g.block3 / 2 ^ 12 % 2 ^ 3 = 0 →
        nonPager t =
          nonPager { common with ecc_ := some (g.block3 % 2 ^ 8),
                                 cc_ := some (g.block1 / 2 ^ 12 % 2 ^ 4) }) ∧
      (g.block3 / 2 ^ 12 % 2 ^ 3 = 2 → nonPager t = nonPager common) := by
  have hslc : bits g.block3 12 3 = g.block3 / 2 ^ 12 % 2 ^ 3 := bits_small _ _ _ (by decide)
  have hcom : decode1_common (add_header s g) g =
      { s with is_tp_ := g.block2.testBit 10, pty_ := g.block2 / 2 ^ 5 % 2 ^ 5,
               pin_ := some g.block4,
               pager_tng_ := some (g.block2 / 2 ^ 2 % 2 ^ 3),
               pager_interval_ :=
                 if g.block2 / 2 ^ 2 % 2 ^ 3 ≠ 0 then some (g.block2 % 2 ^ 2)
                 else s.pager_interval_,
               linkage_la_ := some (g.block3 / 2 ^ 15 % 2) } := by
    unfold decode1_common add_header
    rw [bits_testBit, bits_small _ 5 5 (by decide), bits_small _ 2 3 (by decide),
      bits_low _ 2 (by decide), bits_small _ 15 1 (by decide)]
    norm_num
  have hadd := add_type1A s g h1 hA h4
  rw [hcom] at hadd
  refine ⟨_, _, rfl, hadd, ?_, ?_, ?_, ?_, ?_⟩
  · intro h
    rw [decode1_slc_1 _ g _ (hslc.trans h), bits_low _ _ (by decide)]
  · intro h
    rw [decode1_slc_3 _ g _ (hslc.trans h), bits_low _ _ (by decide)]
  · intro h
    rw [decode1_slc_7 _ g _ (hslc.trans h), bits_low _ _ (by decide)]
  · intro h
    rw [decode1_slc_0 _ g _ (hslc.trans h), bits_low _ _ (by decide),
      bits_small _ 12 4 (by decide)]
  · intro h
    rw [decode1_slc_2 _ g _ (hslc.trans h)]

/-- Witness for C11 (amended): the group with `slc_variant` 1 of the counterexample;
beyond the common members only `tmc_id_` is written. -/
theorem add_type1A_isolation_witness :
    ∃ common t : Station,
      (Station_default decl_zero).add
          { block1 := 0, block2 := 20, block3 := 4096 + 291, block4 := 4660, type := 1,
            type_ab := TypeAB.TYPE_A, num_blocks := 4 } = some t ∧
      t = { common with tmc_id_ := some ((4096 + 291) % 2 ^ 12) } ∧
      common.pager_opc_ = (Station_default decl_zero).pager_opc_ := by
  obtain ⟨common, t, hc, ht, h1, -⟩ :=
    add_type1A_isolation (Station_default decl_zero)
      { block1 := 0, block2 := 20, block3 := 4096 + 291, block4 := 4660, type := 1,
        type_ab := TypeAB.TYPE_A, num_blocks := 4 } rfl rfl rfl
  exact ⟨common, t, ht, h1 (by decide), by rw [hc]⟩

/-- Claim C12: on a 4-block group 1A, `add` returns a station with `pin_ = block4`
and `linkage_la_` bit 15 of block 3.  Of the nine members `tmc_id_`, `lang_`,
`ews_channel_`, `ecc_`, `cc_`, `pager_opc_`, `pager_pac_`, `pager_ecc_`, `pager_ccf_`:
`slc_variant` (bits 12..14 of block 3) 1 changes only `tmc_id_`, to the low 12 bits of
block 3; 3 changes only `lang_`, to the low 8 bits; 7 changes only `ews_channel_`, to the
low 12 bits; 0 sets `ecc_` to the low 8 bits of block 3 and `cc_` to bits 12..15 of
block 1; 4, 5 and 6 change none of the nine. -/
theorem add_type1A_fields (s : Station) (g : Group) (h1 : g.type = 1)
    (hA : g.type_ab = TypeAB.TYPE_A) (h4 : g.num_blocks = 4) :
    ∃ t, s.add g = some t ∧
      t.pin_ = some g.block4 ∧ t.linkage_la_ = some (g.block3 / 2 ^ 15 % 2) ∧
      (g.block3 / 2 ^ 12 % 2 ^ 3 = 1 →
        slcPayload t = slcPayload { s with tmc_id_ := some (g.block3 % 2 ^ 12) }) ∧
      (g.block3 / 2 ^ 12 % 2 ^ 3 = 3 →
        slcPayload t = slcPayload { s with lang_ := some (g.block3 % 2 ^ 8) }) ∧
      (g.block3 / 2 ^ 12 % 2 ^ 3 = 7 →
        slcPayload t = slcPayload { s with ews_channel_ := some (g.block3 % 2 ^ 12) }) ∧
      (g.block3 / 2 ^ 12 % 2 ^ 3 = 0 →
        t.ecc_ = some (g.block3 % 2 ^ 8) ∧ t.cc_ = some (g.block1 / 2 ^ 12 % 2 ^ 4)) ∧
      (g.block3 / 2 ^ 12 % 2 ^ 3 = 4 ∨ g.block3 / 2 ^ 12 % 2 ^ 3 = 5 ∨
          g.block3 / 2 ^ 12 % 2 ^ 3 = 6 →
        slcPayload t = slcPayload s) := by
  have hslc : bits g.block3 12 3 = g.block3 / 2 ^ 12 % 2 ^ 3 := bits_small _ _ _ (by decide)
  have hc := decode1_slc_commonPart (decode1_common (add_header s g) g) g (bits g.block2 2 3)
  simp only [commonPart, Prod.mk.injEq] at hc
  refine ⟨_, add_type1A s g h1 hA h4, ?_, ?_, ?_, ?_, ?_, ?_, ?_⟩
  · rw [hc.1]
    rfl
  · rw [hc.2.2.2]
    show some (bits g.block3 15 1) = _
    rw [bits_small _ _ _ (by decide)]
    norm_num
  · intro h
    rw [decode1_slc_1 _ g _ (hslc.trans h), bits_low _ _ (by decide)]
    rfl
  · intro h
    rw [decode1_slc_3 _ g _ (hslc.trans h), bits_low _ _ (by decide)]
    rfl
  · intro h
    rw [decode1_slc_7 _ g _ (hslc.trans h), bits_low _ _ (by decide)]
    rfl
  · intro h
    have e := decode1_slc_0 (decode1_common (add_header s g) g) g (bits g.block2 2 3)
      (hslc.trans h)
    simp only [nonPager, Prod.mk.injEq] at e
    rw [e.2.2.2.2.2.1, e.2.2.2.2.2.2.1, bits_low _ _ (by decide), bits_small _ _ _ (by decide)]
    exact ⟨rfl, rfl⟩
  · intro h
    rw [decode1_slc_456 _ g _ (by rw [hslc]; exact h)]
    rfl

/-- Witness for C12: a 4-block group 1A with `slc_variant` 3 and the language code
`0x09`. -/
theorem add_type1A_fields_witness :
    ∃ t, (Station_default decl_zero).add
          { block1 := 25089, block2 := 0, block3 := 45065, block4 := 4660, type := 1,
            type_ab := TypeAB.TYPE_A, num_blocks := 4 } = some t ∧
      t.pin_ = some 4660 ∧ t.linkage_la_ = some (45065 / 2 ^ 15 % 2) ∧
      slcPayload t =
        slcPayload { Station_default decl_zero with lang_ := some (45065 % 2 ^ 8) } := by
  obtain ⟨t, ht, hp, hl, -, h3, -⟩ :=
    add_type1A_fields (Station_default decl_zero)
      { block1 := 25089, block2 := 0, block3 := 45065, block4 := 4660, type := 1,
        type_ab := TypeAB.TYPE_A, num_blocks := 4 } rfl rfl rfl
  exact ⟨t, ht, hp, hl, h3 (by decide)⟩

/-- Claim C13: when the group type is none of 0, 1, 2, 4, or is 2, or is 1 or 4 with
fewer than 4 blocks, `add` returns the station with the two header members stored and
nothing else changed; in particular `clock_time_` is as it was. -/
theorem add_noop_cases (s : Station) (g : Group)
    (h : (g.type ≠ 0 ∧ g.type ≠ 1 ∧ g.type ≠ 2 ∧ g.type ≠ 4) ∨ g.type = 2 ∨
      ((g.type = 1 ∨ g.type = 4) ∧ g.num_blocks < 4)) :
    s.add g = some { s with is_tp_ := g.block2.testBit 10, pty_ := g.block2 / 2 ^ 5 % 2 ^ 5 } ∧
    ∀ t, s.add g = some t → t.clock_time_ = s.clock_time_ := by
  have key : s.add g =
      some { s with is_tp_ := g.block2.testBit 10, pty_ := g.block2 / 2 ^ 5 % 2 ^ 5 } := by
    have hh : add_header s g =
        { s with is_tp_ := g.block2.testBit 10, pty_ := g.block2 / 2 ^ 5 % 2 ^ 5 } := by
      unfold add_header
      rw [bits_testBit, bits_small _ _ _ (show 5 ≤ 16 by decide)]
    rw [add_eq, hh]
    rcases h with ⟨h0, h1, h2, h4⟩ | h2 | ⟨h14, hn⟩
    · rw [if_neg h0, if_neg h1, if_neg h2, if_neg h4]
    · rw [if_neg (by omega), if_neg (by omega), if_pos h2]
    · rcases h14 with h1 | h4
      · rw [if_neg (by omega), if_pos h1]
        unfold decode1
        rw [if_pos hn]
      · rw [if_neg (by omega), if_neg (by omega), if_neg (by omega), if_pos h4]
        unfold decode4
        simp only [if_neg (show ¬ g.num_blocks = 4 by omega)]
  refine ⟨key, ?_⟩
  intro t ht
  rw [key, Option.some.injEq] at ht
  rw [← ht]

/-- Witness for C13: a 3-block group 4A leaves `clock_time_` of the default station
unset. -/
theorem add_noop_cases_witness :
    ∃ t, (Station_default decl_zero).add
          { block1 := 0, block2 := 16385, block3 := 37552, block4 := 0, type := 4,
            type_ab := TypeAB.TYPE_A, num_blocks := 3 } = some t ∧
      t.clock_time_ = none :=
  ⟨_,
    (add_noop_cases (Station_default decl_zero)
      { block1 := 0, block2 := 16385, block3 := 37552, block4 := 0, type := 4,
        type_ab := TypeAB.TYPE_A, num_blocks := 3 }
      (Or.inr (Or.inr ⟨Or.inr rfl, by decide⟩))).1, rfl⟩

/-- Claim C14, as the code has it: `decode4` adds the local offset to the hour and to
the minute without carrying into the day.  The group `group_4A_late` encodes day 51544
(2000-01-01), 23:00 UTC and an offset of +1 h (2 half-hours); the instant UTC + 1 h is
00:00 of day 51545, which is 2000-01-02, but `add` stores `2000-01-01T00:00+01:00` and a
newline.  The group `group_4A_early` encodes day 51544, 00:15 UTC and an offset of -1.5 h;
the instant is 22:45 of day 51543, which is 1999-12-31, but `add` stores
`1999-12-31T-1:-15-01:-30` and a newline. -/
theorem decode4_local_time_no_carry :
    (decode4_mjd0 group_4A_late = 51544 ∧ decode4_hour group_4A_late = 23 ∧
      decode4_minute group_4A_late = 0 ∧ decode4_ks group_4A_late = 2 ∧
      (∃ t, (Station_default decl_zero).add group_4A_late = some t ∧
        t.clock_time_ = some "2000-01-01T00:00+01:00\n") ∧
      local_time_ref 51544 23 0 2 = (51545, 0, 0) ∧
      valid_date 2000 1 2 ∧ mjd_of_gregorian 2000 1 2 = 51545) ∧
    (decode4_mjd0 group_4A_early = 51544 ∧ decode4_hour group_4A_early = 0 ∧
      decode4_minute group_4A_early = 15 ∧ decode4_ks group_4A_early = -3 ∧
      (∃ t, (Station_default decl_zero).add group_4A_early = some t ∧
        t.clock_time_ = some "1999-12-31T-1:-15-01:-30\n") ∧
      local_time_ref 51544 0 15 (-3) = (51543, 22, 45) ∧
      valid_date 1999 12 31 ∧ mjd_of_gregorian 1999 12 31 = 51543) := by
  refine ⟨⟨by decide, by decide, by decide, by decide, ⟨_, add_type4 _ _ rfl, ?_⟩, by decide,
    ⟨by decide, by decide, by decide, by decide⟩, by decide⟩,
    ⟨by decide, by decide, by decide, by decide, ⟨_, add_type4 _ _ rfl, ?_⟩, by decide,
    ⟨by decide, by decide, by decide, by decide⟩, by decide⟩⟩
  · rw [decode4_nonneg_offset _ group_4A_late rfl (by decide) (by decide) (by decide)]
    rfl
  · rw [decode4_eq4 _ group_4A_early rfl]
    have e1 : decode4_mjd0 group_4A_early = 51544 := by decide
    have e2 : decode4_ks group_4A_early = -3 := by decide
    have e3 : decode4_hour group_4A_early = 0 := by decide
    have e4 : decode4_minute group_4A_early = 15 := by decide
    rw [e1, e2, e3, e4]
    have t1 : toInt ((((51544 : Nat) : ℚ)) + (((-3 : Int) : ℚ) / 2.0) / 24.0) = 51543 := by
      norm_num [toInt]
    have t2 : toInt (((0 : Nat) : ℚ) + ((-3 : Int) : ℚ) / 2.0) = -1 := by
      norm_num [toInt, Int.ceil_eq_iff]
    have t3 : toInt (((-3 : Int) : ℚ) / 2.0) = -1 := by
      norm_num [toInt, Int.ceil_eq_iff]
    rw [t1, t2, t3]
    have t4 : toInt ((((-3 : Int) : ℚ) / 2.0 - (((-1 : Int)) : ℚ)) * 60) = -30 := by
      norm_num [toInt, Int.ceil_eq_iff]
    rw [t4, mjd_date_eq_int _ (by decide)]
    rfl

/-- Claim C15, counterexample: for the group `group_4A_noon` (day 51544, 12:00 UTC,
offset 0) `add` stores `2000-01-01T12:00+00:00` followed by a newline: 23 characters,
which is not the shape of the claim, while the first 22 of them are. -/
theorem decode4_timestamp_shape_counterexample :
    ∃ t, (Station_default decl_zero).add group_4A_noon = some t ∧
      t.clock_time_ = some "2000-01-01T12:00+00:00\n" ∧
      ("2000-01-01T12:00+00:00\n").length = 23 ∧
      iso_shape ("2000-01-01T12:00+00:00\n").data = false ∧
      iso_shape ("2000-01-01T12:00+00:00").data = true := by
  refine ⟨_, add_type4 _ _ rfl, ?_, by decide, by decide, by decide⟩
  rw [decode4_nonneg_offset _ group_4A_noon rfl (by decide) (by decide) (by decide)]
  rfl

/-- Claim C15, amended: on a 4-block group of type 4 whose offset sign bit is 0, with
block 3 a 16-bit value and the day number `(block2 mod 4) * 32768 + block3 / 2` in
15079..88127, `add` stores a string made of 22 characters of the shape
`YYYY-MM-DDTHH:MM±HH:MM` followed by one newline character. -/
theorem decode4_timestamp_shape (s : Station) (g : Group) (ht : g.type = 4)
    (h4 : g.num_blocks = 4) (hsign : bits g.block4 5 1 = 0) (hb3 : g.block3 < 65536)
    (hlo : 15079 ≤ g.block2 % 4 * 32768 + g.block3 / 2)
    (hhi : g.block2 % 4 * 32768 + g.block3 / 2 ≤ 88127) :
    ∃ t body, s.add g = some t ∧ t.clock_time_ = some (String.mk (body ++ ['\n'])) ∧
      iso_shape body = true ∧ body.length = 22 := by
  obtain ⟨-, hk0, hk1⟩ := decode4_ks_bounds g hsign
  have hm0 := decode4_mjd0_eq g hb3
  obtain ⟨v, -, y0, y1⟩ := mjd_date_int_correct (decode4_mjd0 g : Int) ⟨by omega, by omega⟩
  have hd := days_in_month_bounds (mjd_date_int (decode4_mjd0 g : Int)).1
    (mjd_date_int (decode4_mjd0 g : Int)).2.1
  have hmin := bits_lt g.block4 6 6
  obtain ⟨body, e, sh⟩ := clock_snprintf_shape
    (mjd_date_int (decode4_mjd0 g)).1 (mjd_date_int (decode4_mjd0 g)).2.1
    (mjd_date_int (decode4_mjd0 g)).2.2
    (((decode4_hour g : Int) + decode4_ks g / 2) % 24)
    ((decode4_minute g : Int) + 30 * (decode4_ks g % 2))
    (decode4_ks g / 2) (30 * (decode4_ks g % 2))
    ⟨y0, y1⟩ ⟨by have := v.1; omega, by have := v.2.1; omega⟩
    ⟨by have := v.2.2.1; omega, by have := v.2.2.2; omega⟩
    ⟨by omega, by omega⟩
    ⟨by omega, by unfold decode4_minute; omega⟩
    ⟨by omega, by omega⟩ ⟨by omega, by omega⟩
  refine ⟨_, body, add_type4 s g ht, ?_, sh, ?_⟩
  · rw [decode4_nonneg_offset (add_header s g) g h4 hk0 (by omega) (by omega)]
    exact congrArg some e
  · revert sh
    unfold iso_shape
    split
    · intro _
      rfl
    · intro h
      exact absurd h (by decide)

/-- Witness for C15 at the group `group_4A_late`, whose offset is +1 h. -/
theorem decode4_timestamp_shape_witness :
    ∃ t body, (Station_default decl_zero).add group_4A_late = some t ∧
      t.clock_time_ = some (String.mk (body ++ ['\n'])) ∧
      iso_shape body = true ∧ body.length = 22 :=
  decode4_timestamp_shape (Station_default decl_zero) group_4A_late rfl rfl (by decide)
    (by decide) (by decide) (by decide)

/-- Claim C16, as the code has it: the table has 224 entries, so that `c - 32` is an
index of it for every `c` in 32..255; for a code `c` in 32..127, `lcd_char` of the
`char` that holds `c` is defined and is the entry at index `c - 32`.  A code in 128..255
is held as the negative `char` `c - 256` (200 as -56, 255 as -1): `code - 32` is then
negative, outside the table, and `lcd_char` is undefined, so the entries from index 96
on are never read.  Code 32 gives the blank glyph and code 65 gives "A"; code 255 gives
nothing. -/
theorem lcd_char_table (c : Int) (h : 32 ≤ c ∧ c ≤ 255) :
    (c ≤ 127 → toChar c = c ∧
      ∃ g, lcd_char (toChar c) = some g ∧ char_map.get? (c - 32).toNat = some g) ∧
    (128 ≤ c → toChar c = c - 256 ∧ toChar c - 32 < 0 ∧ lcd_char (toChar c) = none) ∧
    (c - 32).toNat < char_map.length ∧ char_map.length = 224 ∧
    lcd_char (toChar 32) = some " " ∧ lcd_char (toChar 65) = some "A" ∧
    toChar 200 = -56 ∧ lcd_char (toChar 200) = none ∧
    toChar 255 = -1 ∧ lcd_char (toChar 255) = none := by
  refine ⟨?_, ?_, ?_, char_map_length, rfl, rfl, rfl, rfl, rfl, rfl⟩
  · intro hc
    rw [toChar_of_valid c ⟨h.1, hc⟩]
    exact ⟨rfl, lcd_char_isSome c ⟨h.1, hc⟩⟩
  · intro hc
    have e := toChar_high c ⟨hc, h.2⟩
    exact ⟨e, by omega, lcd_char_high c ⟨hc, h.2⟩⟩
  · rw [char_map_length]
    omega

/-- Witness for C16 at the code 200. -/
theorem lcd_char_table_witness :
    ((200 : Int) ≤ 127 → toChar 200 = 200 ∧
      ∃ g, lcd_char (toChar 200) = some g ∧ char_map.get? ((200 : Int) - 32).toNat = some g) ∧
    ((128 : Int) ≤ 200 → toChar 200 = 200 - 256 ∧ toChar 200 - 32 < 0 ∧
      lcd_char (toChar 200) = none) ∧
    ((200 : Int) - 32).toNat < char_map.length ∧ char_map.length = 224 ∧
    lcd_char (toChar 32) = some " " ∧ lcd_char (toChar 65) = some "A" ∧
    toChar 200 = -56 ∧ lcd_char (toChar 200) = none ∧
    toChar 255 = -1 ∧ lcd_char (toChar 255) = none :=
  lcd_char_table 200 (by decide)

/-- Claim C17: for a 16-bit word `w` and `start + len ≤ 16`, the three adjacent fields
below `start`, from `start` of width `len`, and above `start + len`, put back at their
offsets, give `w`. -/
theorem bits_partition (w start len : Nat) (hw : w < 65536) (h : start + len ≤ 16) :
    bits w 0 start + 2 ^ start * bits w start len +
      2 ^ (start + len) * bits w (start + len) (16 - start - len) = w := by
  rw [bits_small w 0 start (by omega), bits_small w start len (by omega),
    bits_small w (start + len) (16 - start - len) (by omega)]
  have h1 : w / 2 ^ (start + len) % 2 ^ (16 - start - len) = w / 2 ^ (start + len) := by
    apply Nat.mod_eq_of_lt
    rw [Nat.div_lt_iff_lt_mul (Nat.two_pow_pos _), ← pow_add]
    have : 16 - start - len + (start + len) = 16 := by omega
    rw [this]
    exact hw
  rw [h1, pow_zero, Nat.div_one, pow_add, ← Nat.div_div_eq_div_mul, Nat.mul_assoc, Nat.add_assoc,
    ← Nat.mul_add, Nat.mod_add_div, Nat.mod_add_div]

/-- Witness for C17 at `w = 0xabcd`, `start = 4`, `len = 8`. -/
theorem bits_partition_witness :
    bits 43981 0 4 + 2 ^ 4 * bits 43981 4 8 + 2 ^ (4 + 8) * bits 43981 (4 + 8) (16 - 4 - 8)
      = 43981 :=
  bits_partition 43981 4 8 (by decide) (by decide)

/-- Claim C18: on a 4-block group of type 4 with offset sign bit 0 and offset magnitude
0, block 3 a 16-bit value and `mjd = (block2 mod 4) * 32768 + block3 / 2` in
15079..88127, `add` stores the timestamp printed from the year, month and day that the
date lines of `decode4` compute from `mjd` (`mjd_date`, with the constants as exact
rationals and `int()` as truncation).  They form a date of the Gregorian calendar whose
Modified Julian Day is `mjd`, the only such date, with the month in 1..12 and the day in
1..31.  Day 51544 gives 2000-01-01; the ends of the range are 1900-03-01 and
2100-02-28. -/
theorem decode4_date_gregorian (s : Station) (g : Group) (ht : g.type = 4)
    (h4 : g.num_blocks = 4) (hsign : bits g.block4 5 1 = 0) (hmag : bits g.block4 0 5 = 0)
    (hb3 : g.block3 < 65536)
    (hlo : 15079 ≤ g.block2 % 4 * 32768 + g.block3 / 2)
    (hhi : g.block2 % 4 * 32768 + g.block3 / 2 ≤ 88127) :
    ∃ Y M D : Int,
      mjd_date ((g.block2 % 4 * 32768 + g.block3 / 2 : Nat) : ℚ) = (Y, M, D) ∧
      (∃ t, s.add g = some t ∧
        t.clock_time_ =
          some (clock_snprintf Y M D ((decode4_hour g : Int) % 24) (decode4_minute g) 0 0)) ∧
      valid_date Y M D ∧
      mjd_of_gregorian Y M D = ((g.block2 % 4 * 32768 + g.block3 / 2 : Nat) : Int) ∧
      (∀ y m d : Int, valid_date y m d →
        mjd_of_gregorian y m d = ((g.block2 % 4 * 32768 + g.block3 / 2 : Nat) : Int) →
        y = Y ∧ m = M ∧ d = D) ∧
      1 ≤ M ∧ M ≤ 12 ∧ 1 ≤ D ∧ D ≤ 31 ∧
      mjd_date 51544 = (2000, 1, 1) ∧
      mjd_of_gregorian 1900 3 1 = 15079 ∧ mjd_of_gregorian 2100 2 28 = 88127 := by
  obtain ⟨hk, -, -⟩ := decode4_ks_bounds g hsign
  rw [hmag] at hk
  have hm0 := decode4_mjd0_eq g hb3
  obtain ⟨v, e, -, -⟩ := mjd_date_int_correct ((g.block2 % 4 * 32768 + g.block3 / 2 : Nat) : Int)
    ⟨by omega, by omega⟩
  have hd := days_in_month_bounds
    (mjd_date_int ((g.block2 % 4 * 32768 + g.block3 / 2 : Nat) : Int)).1
    (mjd_date_int ((g.block2 % 4 * 32768 + g.block3 / 2 : Nat) : Int)).2.1
  have hdec := decode4_nonneg_offset (add_header s g) g h4 (by rw [hk]; decide)
    (by rw [hk]; decide) (by omega)
  rw [hk, hm0] at hdec
  refine ⟨_, _, _, mjd_date_eq_int _ (by omega), ⟨_, add_type4 s g ht, ?_⟩, v, e, ?_,
    v.1, v.2.1, v.2.2.1, by have := v.2.2.2; omega, ?_, by decide, by decide⟩
  · rw [hdec]
    rfl
  · intro y m d hv he
    exact mjd_of_gregorian_inj y m d _ _ _ hv v (he.trans e.symm)
  · rw [show (51544 : ℚ) = ((51544 : Int) : ℚ) by norm_num, mjd_date_eq_int _ (by decide)]
    decide

/-- Witness for C18 at the group `group_4A_noon`: day 51544, 12:00 UTC, offset 0. -/
theorem decode4_date_gregorian_witness :
    ∃ Y M D : Int,
      mjd_date ((group_4A_noon.block2 % 4 * 32768 + group_4A_noon.block3 / 2 : Nat) : ℚ) =
        (Y, M, D) ∧
      (∃ t, (Station_default decl_zero).add group_4A_noon = some t ∧
        t.clock_time_ =
          some (clock_snprintf Y M D ((decode4_hour group_4A_noon : Int) % 24)
            (decode4_minute group_4A_noon) 0 0)) ∧
      valid_date Y M D ∧
      mjd_of_gregorian Y M D =
        ((group_4A_noon.block2 % 4 * 32768 + group_4A_noon.block3 / 2 : Nat) : Int) ∧
      (∀ y m d : Int, valid_date y m d →
        mjd_of_gregorian y m d =
          ((group_4A_noon.block2 % 4 * 32768 + group_4A_noon.block3 / 2 : Nat) : Int) →
        y = Y ∧ m = M ∧ d = D) ∧
      1 ≤ M ∧ M ≤ 12 ∧ 1 ≤ D ∧ D ≤ 31 ∧
      mjd_date 51544 = (2000, 1, 1) ∧
      mjd_of_gregorian 1900 3 1 = 15079 ∧ mjd_of_gregorian 2100 2 28 = 88127 :=
  decode4_date_gregorian (Station_default decl_zero) group_4A_noon rfl rfl (by decide)
    (by decide) (by decide) (by decide) (by decide)

/-- Claim C19, as the code has it: among the calls of `bits` that `decode4` makes on a
group of 4 blocks is `bits(group.block4, 12, 14)`, for which `starting_at + len` is 26;
the checked extractor gives an error on it, and on no other call of `decode4`.  For a
16-bit block 4 the value returned is that of the 4-bit field at bit 12. -/
theorem decode4_bits_precondition (g : Group) :
    (g.block4, 12, 14) ∈ decode4_bits_calls g ∧ bits_checked g.block4 12 14 = none ∧
    (∀ c ∈ decode4_bits_calls g, bits_checked c.1 c.2.1 c.2.2 = none →
      c = (g.block4, 12, 14)) ∧
    (g.block4 < 65536 → bits g.block4 12 14 = bits g.block4 12 4) := by
  refine ⟨by simp [decode4_bits_calls], rfl, ?_, ?_⟩
  · intro c hc hn
    simp only [decode4_bits_calls, List.mem_cons, List.mem_singleton, List.not_mem_nil,
      or_false] at hc
    rcases hc with h | h | h | h | h | h | h <;> rw [h] at hn ⊢ <;>
      first | rfl | exact absurd hn (by simp [bits_checked])
  · intro h
    rw [bits_small _ _ _ (by decide), bits_small _ _ _ (by decide)]
    have : g.block4 / 2 ^ 12 < 16 := by
      rw [Nat.div_lt_iff_lt_mul (Nat.two_pow_pos _)]
      omega
    omega

/-- Claim C20: for an accepted call of `updatePS`, the test of the source,
`pos != prev_ps_pos_ + 2 || pos == prev_ps_pos_`, is equivalent to
`pos != prev_ps_pos_ + 2`.  When it holds, the mask of the result is exactly the bits
`pos .. pos+len-1` and the ready flag is set only if that mask is `0xff`; when
`pos = prev_ps_pos_ + 2`, the mask is the old mask with these bits added.  An accepted
call with codes in 32..127 on a glyph buffer of 8 entries returns.  A station whose name
is ready and whose previous position is 6 is not ready after a fragment of two
characters at position 0. -/
theorem updatePS_reset_rule (s : Station) :
    (∀ (pos : Int) (chars : List Int), 0 ≤ pos → pos + (chars.length : Int) ≤ 8 →
      ((pos ≠ s.prev_ps_pos_ + 2 ∨ pos = s.prev_ps_pos_) ↔ pos ≠ s.prev_ps_pos_ + 2) ∧
      (∀ t, s.updatePS pos chars = some t →
        (pos ≠ s.prev_ps_pos_ + 2 →
          t.ps_received_bitfield_ = orBits 0 pos.toNat chars.length ∧
          (t.has_ps_ = true ↔ t.ps_received_bitfield_ = 255) ∧
          ∀ j, t.ps_received_bitfield_.testBit j =
            decide (pos.toNat ≤ j ∧ j < pos.toNat + chars.length)) ∧
        (pos = s.prev_ps_pos_ + 2 →
          t.ps_received_bitfield_ =
            s.ps_received_bitfield_ ||| orBits 0 pos.toNat chars.length ∧
          ∀ j, t.ps_received_bitfield_.testBit j =
            (s.ps_received_bitfield_.testBit j ||
              decide (pos.toNat ≤ j ∧ j < pos.toNat + chars.length)))) ∧
      (s.ps_.length = 8 → validChars chars → ∃ t, s.updatePS pos chars = some t)) ∧
    (∀ (c d : Int), s.has_ps_ = true → s.prev_ps_pos_ = 6 → s.ps_.length = 8 →
      validChars [c, d] → ∃ t, s.updatePS 0 [c, d] = some t ∧ t.hasPS = false) := by
  constructor
  · intro pos chars h0 h8
    refine ⟨⟨fun _ => by omega, fun h => Or.inl h⟩, ?_,
      fun hps hv => updatePS_defined s pos chars hps hv⟩
    intro t ht
    have e := updatePS_some s t pos chars ht h0 h8
    have hmask : t.ps_received_bitfield_ =
        orBits (if resets s pos then 0 else s.ps_received_bitfield_) pos.toNat chars.length := by
      rw [e]
    have hhas : t.has_ps_ =
        (if orBits (if resets s pos then 0 else s.ps_received_bitfield_) pos.toNat chars.length
            = 255 then true
         else if resets s pos then false else s.has_ps_) := by
      rw [e]
    constructor
    · intro hne
      have hr : resets s pos := Or.inl hne
      rw [if_pos hr] at hmask hhas
      refine ⟨hmask, ?_, fun j => by rw [hmask]; simp [orBits_testBit]⟩
      rw [hhas, hmask]
      by_cases hm : orBits 0 pos.toNat chars.length = 255 <;> simp [hm, hr]
    · intro heq
      have hr : ¬ resets s pos := by
        unfold resets
        omega
      rw [if_neg hr] at hmask
      exact ⟨hmask.trans (orBits_eq_or _ _ _), fun j => by rw [hmask]; exact orBits_testBit _ _ _ _⟩
  · intro c d hready hprev hps hv
    have e := updatePS_accept s 0 [c, d] (by decide) (by simp) hv hps
    have hr : resets s 0 := by
      unfold resets
      omega
    refine ⟨_, e, ?_⟩
    simp only [hasPS, if_pos hr]
    rfl

/-- Witness for C20: a station with a complete name and previous position 6 receives
"AB" at position 0. -/
theorem updatePS_reset_rule_witness :
    ∃ t, ({ Station_default decl_zero with
              has_ps_ := true, ps_received_bitfield_ := 255, prev_ps_pos_ := 6 } :
            Station).updatePS 0 [65, 66] = some t ∧ t.hasPS = false :=
  (updatePS_reset_rule
      { Station_default decl_zero with
          has_ps_ := true, ps_received_bitfield_ := 255, prev_ps_pos_ := 6 }).2
    65 66 rfl rfl rfl (by decide)

end Redsea
